import Mathlib

/-!
Verification of the godiff structural-diff library (github.com/ralscha/godiff).

The repository snapshot contains the comparison engine in two revisions:
the current revision (variadic `Compare` options, `MaxDepth`, cross-type
numeric comparison; file embedded here as the root-namespace engine,
source `compare.go` of the current tree, provided as `unnamed/part_003`),
and an earlier revision (`src/compare.go`) that additionally carries the
identity-field (`diff:"id"` / `IDFieldNames`) short-circuit in
`compareStructs` and the `CompareWithConfig` entry point; that revision is
embedded in namespace `WithID`.

Shallow-embedding conventions:
* Go interface values are the inductive `GoVal`; the untyped nil interface
  is `GoVal.vnil`.  Runtime types (`reflect.Type`) are `GoTy`, kinds
  (`reflect.Kind`) are `GoKind` with the numeric codes of package reflect.
* Pointers, maps, slices, funcs and channels carry an abstract address
  (`Option Nat`, `none` = nil reference); pointer targets live in an
  explicit heap (`Heap`), which also lets the model express cyclic and
  shared structures.
* float32/float64 values are `F64` (an exact model of the IEEE binary64
  values: NaN, signed infinities, and finite values as rationals); the
  conversions used by the source (int64/uint64 to float64) are implemented
  with round-to-nearest-even.
* General recursion of the engine is expressed with a fuel parameter that
  bounds the recursion depth; `none` means the fuel was exhausted.
  Termination claims are rendered as "some explicit fuel suffices".
* The mutable `config.visitedPairs` map is threaded as an explicit
  argument; `comparePointers` returns the resulting set so that its
  push/pop (frame) discipline is provable.  `result.Diffs` (append-only in
  the source) is threaded as a `List DiffRec` argument and returned.
-/

/-- Model of an IEEE binary64 value: NaN, a signed infinity, or a finite
value represented exactly as a rational (both zeroes are `fin 0`; IEEE
equality identifies them, and no operation modelled here distinguishes
them). -/
inductive F64 where
  | nan : F64
  | inf (neg : Bool) : F64
  | fin (q : ℚ) : F64
deriving DecidableEq, Repr

namespace F64

/-- IEEE equality on binary64 values: NaN compares unequal to everything
(itself included); infinities compare by sign; finite values compare by
numeric value. -/
def f64eq : F64 → F64 → Bool
  | nan, _ => false
  | _, nan => false
  | inf a, inf b => a == b
  | inf _, fin _ => false
  | fin _, inf _ => false
  | fin a, fin b => a == b

/-- Check for NaN. -/
def isNaN : F64 → Bool
  | nan => true
  | _ => false

end F64

/-- Base-2 logarithm with an explicit structural fuel (the fuel only
needs to cover the number of halvings, and the argument itself always
does). -/
def log2F : Nat → Nat → Nat
  | 0, _ => 0
  | fuel + 1, n => if 2 ≤ n then log2F fuel (n / 2) + 1 else 0

/-- Base-2 logarithm (floor), structural. -/
def nlog2 (n : Nat) : Nat := log2F n n

/-- Round a natural number to 53 significant bits, round-to-nearest,
ties-to-even: this is the mantissa rounding performed when a wide integer
is converted to float64. -/
def roundNat53 (m : Nat) : Nat :=
  if m < 2 ^ 53 then m
  else
    let k := nlog2 m
    let s := k - 52
    let q := m / 2 ^ s
    let r := m % 2 ^ s
    let half := 2 ^ (s - 1)
    let q1 := if r > half || (r == half && q % 2 == 1) then q + 1 else q
    q1 * 2 ^ s

/-- Conversion of a Go int64 value to float64 (exact for |n| ≤ 2^53,
round-to-nearest-even beyond; int64 never overflows to infinity). -/
def int64ToF64 (n : ℤ) : F64 :=
  if n < 0 then F64.fin (-(roundNat53 n.natAbs : ℚ))
  else F64.fin (roundNat53 n.natAbs : ℚ)

/-- Conversion of a Go uint64 value to float64. -/
def uint64ToF64 (n : ℕ) : F64 :=
  F64.fin (roundNat53 n : ℚ)

/-- Widths of the signed integer kinds (int, int8 … int64). -/
inductive IntW where
  | i | i8 | i16 | i32 | i64
deriving DecidableEq, Repr

/-- Widths of the unsigned integer kinds (uint, uint8 … uint64, uintptr). -/
inductive UintW where
  | u | u8 | u16 | u32 | u64 | uptr
deriving DecidableEq, Repr

/-- The reflect.Kind constants used by the engine. -/
inductive GoKind where
  | kInvalid | kBool
  | kInt (w : IntW) | kUint (w : UintW)
  | kFloat32 | kFloat64 | kComplex64 | kComplex128
  | kChan | kFunc | kInterface | kMap | kPointer | kSlice | kString | kStruct
deriving DecidableEq, Repr

/-- Numeric code of a kind, exactly the constant values of package
reflect (Invalid=0 … String=24, Struct=25); the source's kind predicates
are interval tests on these codes. -/
def kindCode : GoKind → Nat
  | .kInvalid => 0
  | .kBool => 1
  | .kInt .i => 2
  | .kInt .i8 => 3
  | .kInt .i16 => 4
  | .kInt .i32 => 5
  | .kInt .i64 => 6
  | .kUint .u => 7
  | .kUint .u8 => 8
  | .kUint .u16 => 9
  | .kUint .u32 => 10
  | .kUint .u64 => 11
  | .kUint .uptr => 12
  | .kFloat32 => 13
  | .kFloat64 => 14
  | .kComplex64 => 15
  | .kComplex128 => 16
  | .kChan => 18
  | .kFunc => 19
  | .kInterface => 20
  | .kMap => 21
  | .kPointer => 22
  | .kSlice => 23
  | .kString => 24
  | .kStruct => 25

/-- Runtime types (reflect.Type) over the modelled universe.  Go's type
identity for defined struct types is nominal, so a struct type is
identified by its defined name, together with the one attribute of the
type the engine still needs after dispatch, comparability (in Go derived
from the field types; here recorded in the descriptor — the field
descriptors themselves travel with the struct value, mirroring how the
engine reads `typ.Field(i)` alongside `val.Field(i)`).  `tIface` is an
interface type (only legal as a struct field's declared type — a dynamic
type is never an interface); `tTime` is the stdlib type time.Time (a
struct with only unexported fields, normally claimed by TimeHandler);
`tFunc sig` identifies a function type by an abstract signature id. -/
inductive GoTy where
  | tBool
  | tInt (w : IntW)
  | tUint (w : UintW)
  | tFloat32 | tFloat64 | tComplex64 | tComplex128
  | tString
  | tTime
  | tIface
  | tStruct (name : String) (cmp : Bool)
  | tSlice (elem : GoTy)
  | tMap (key val : GoTy)
  | tPtr (elem : GoTy)
  | tFunc (sig : Nat)
  | tChan (elem : GoTy)
deriving DecidableEq, Repr

/-- Field descriptor of a struct type: name, `diff` tag, exported flag,
declared type (mirrors reflect.StructField as consumed by the engine). -/
abbrev FieldTy := String × String × Bool × GoTy

/-- Name of a struct field descriptor. -/
def FieldTy.fname (f : FieldTy) : String := f.1

/-- Value of the `diff` tag of a struct field descriptor. -/
def FieldTy.ftag (f : FieldTy) : String := f.2.1

/-- Exported flag of a struct field descriptor. -/
def FieldTy.fexported (f : FieldTy) : Bool := f.2.2.1

/-- Declared type of a struct field descriptor. -/
def FieldTy.fty (f : FieldTy) : GoTy := f.2.2.2

/-- Kind of a runtime type (reflect.Type.Kind). -/
def kindOfTy : GoTy → GoKind
  | .tBool => .kBool
  | .tInt w => .kInt w
  | .tUint w => .kUint w
  | .tFloat32 => .kFloat32
  | .tFloat64 => .kFloat64
  | .tComplex64 => .kComplex64
  | .tComplex128 => .kComplex128
  | .tString => .kString
  | .tTime => .kStruct
  | .tIface => .kInterface
  | .tStruct _ _ => .kStruct
  | .tSlice _ => .kSlice
  | .tMap _ _ => .kMap
  | .tPtr _ => .kPointer
  | .tFunc _ => .kFunc
  | .tChan _ => .kChan

/-- reflect.Type.Comparable: slices, maps and funcs are not comparable; a
struct type's comparability is read off its descriptor; interface types
count as comparable (comparison may panic dynamically). -/
def tyComparable : GoTy → Bool
  | .tSlice _ => false
  | .tMap _ _ => false
  | .tFunc _ => false
  | .tStruct _ cmp => cmp
  | _ => true

/-- Go interface values over the modelled universe.  `vnil` is the untyped
nil interface.  Struct values carry their defined name, the comparability
of their type, the field descriptors of their type, and the field values
(parallel lists, exactly as reflect exposes `typ.Field(i)` /
`val.Field(i)`); a value stored in an interface-typed field is stored
unwrapped (its dynamic value), matching `leftField.Interface()`.  Slice,
map, pointer, func and chan values carry an abstract address (`none` =
nil reference); slice elements and map entries are carried inline,
pointer targets live in the heap.  `vtime` is a time.Time instant (only
its `Equal`-relevant instant is modelled). -/
inductive GoVal where
  | vnil
  | vbool (b : Bool)
  | vint (w : IntW) (n : ℤ)
  | vuint (w : UintW) (n : ℕ)
  | vfloat32 (x : F64)
  | vfloat64 (x : F64)
  | vcomplex64 (re im : F64)
  | vcomplex128 (re im : F64)
  | vstring (s : String)
  | vtime (instant : ℤ)
  | vstruct (name : String) (cmp : Bool) (ftys : List FieldTy) (fvals : List GoVal)
  | vslice (elemTy : GoTy) (addr : Option Nat) (elems : List GoVal)
  | vmap (keyTy valTy : GoTy) (addr : Option Nat) (entries : List (GoVal × GoVal))
  | vptr (elemTy : GoTy) (addr : Option Nat)
  | vfunc (sig : Nat) (addr : Option Nat)
  | vchan (elemTy : GoTy) (addr : Option Nat)

/-- Dynamic type of a value (reflect.ValueOf(v).Type()).  In Go this
panics for the nil interface; the engine always guards with the
invalid-value checks first, so the `vnil ↦ tIface` clause here is inert
(it is only ever reached on inputs on which the original program would
have crashed, and no claim concerns such inputs). -/
def typeOf : GoVal → GoTy
  | .vnil => .tIface
  | .vbool _ => .tBool
  | .vint w _ => .tInt w
  | .vuint w _ => .tUint w
  | .vfloat32 _ => .tFloat32
  | .vfloat64 _ => .tFloat64
  | .vcomplex64 _ _ => .tComplex64
  | .vcomplex128 _ _ => .tComplex128
  | .vstring _ => .tString
  | .vtime _ => .tTime
  | .vstruct name cmp _ _ => .tStruct name cmp
  | .vslice elemTy _ _ => .tSlice elemTy
  | .vmap keyTy valTy _ _ => .tMap keyTy valTy
  | .vptr elemTy _ => .tPtr elemTy
  | .vfunc sig _ => .tFunc sig
  | .vchan elemTy _ => .tChan elemTy

/-- Dynamic kind of a value (reflect.ValueOf(v).Kind(); Invalid for the
nil interface). -/
def kindOf : GoVal → GoKind
  | .vnil => .kInvalid
  | v => kindOfTy (typeOf v)

/-- Address (`Value.Pointer()`) of a reference-kind value: the data
pointer of a slice, the address of a map/pointer/func/chan; 0 for a nil
reference, `none` for non-reference kinds. -/
def refPointer : GoVal → Option Nat
  | .vslice _ addr _ => some (addr.getD 0)
  | .vmap _ _ addr _ => some (addr.getD 0)
  | .vptr _ addr => some (addr.getD 0)
  | .vfunc _ addr => some (addr.getD 0)
  | .vchan _ addr => some (addr.getD 0)
  | _ => none

/-- Heap mapping abstract addresses to pointer targets; cyclic heaps model
self-referential Go structures. -/
abbrev Heap := List (Nat × GoVal)

/-- Dereference an address in the heap (a dangling address yields the nil
interface; well-formed inputs never dangle). -/
def heapGet (heap : Heap) (a : Nat) : GoVal :=
  ((heap.find? (fun p => p.1 == a)).map (fun p => p.2)).getD .vnil

/-- Combine a list of fuelled boolean checks: `none` (fuel exhausted)
propagates, a `false` result stops the scan. -/
def optAll (f : α → Option Bool) : List α → Option Bool
  | [] => some true
  | a :: as =>
    match f a with
    | none => none
    | some false => some false
    | some true => optAll f as

/-- Model of Go interface equality (`==` on two interface values): false
when the dynamic types differ, otherwise the dynamic values are compared
with the type's equality operator.  NaN makes float (and
complex/struct-containing-float) values unequal to themselves.  Fuel
bounds the structural recursion; `none` = fuel exhausted.  On slice, map
and func operands Go panics ("uncomparable type"); the engine only
reaches `==` behind a `Type().Comparable()` guard, and the model returns
false on those inert cases. -/
def goEqB : Nat → GoVal → GoVal → Option Bool
  | 0, _, _ => none
  | n + 1, v, w =>
    if typeOf v ≠ typeOf w then some false
    else
      match v, w with
      | .vnil, .vnil => some true
      | .vbool a, .vbool b => some (a == b)
      | .vint _ a, .vint _ b => some (a == b)
      | .vuint _ a, .vuint _ b => some (a == b)
      | .vfloat32 a, .vfloat32 b => some (F64.f64eq a b)
      | .vfloat64 a, .vfloat64 b => some (F64.f64eq a b)
      | .vcomplex64 a b, .vcomplex64 c d => some (F64.f64eq a c && F64.f64eq b d)
      | .vcomplex128 a b, .vcomplex128 c d => some (F64.f64eq a c && F64.f64eq b d)
      | .vstring a, .vstring b => some (a == b)
      | .vtime a, .vtime b => some (a == b)
      | .vstruct _ _ _ fv1, .vstruct _ _ _ fv2 =>
        if fv1.length ≠ fv2.length then some false
        else optAll (fun p => goEqB n p.1 p.2) (fv1.zip fv2)
      | .vptr _ a, .vptr _ b => some (a == b)
      | .vchan _ a, .vchan _ b => some (a == b)
      | _, _ => some false

/-- Look a key up in a map's entry list using Go key equality (the model
of `Value.MapIndex`): `some none` = key absent (an invalid Value in Go),
`some (some v)` = present with value v, `none` = fuel exhausted.  A NaN
key is not equal to any key, itself included, exactly as in a Go map. -/
def mapLookup (n : Nat) (k : GoVal) : List (GoVal × GoVal) → Option (Option GoVal)
  | [] => some none
  | (k2, v2) :: rest =>
    match goEqB n k k2 with
    | none => none
    | some true => some (some v2)
    | some false => mapLookup n k rest

/-- Model of reflect.DeepEqual on the value universe.  Follows the
documented semantics: pointers are deeply equal when `==` or when their
targets are (hence the heap); slices/maps must agree on nilness and
length and short-circuit on a shared address; non-nil funcs are never
deeply equal; floats compare by IEEE `==` (NaN unequal to itself); struct
comparison descends into all fields, unexported included.  Fuel bounds
the recursion; Go's DeepEqual-internal cycle guard is not modelled, so a
comparison that only terminates by that guard exhausts fuel instead (no
claim depends on such a comparison). -/
def deepEqual (heap : Heap) : Nat → GoVal → GoVal → Option Bool
  | 0, _, _ => none
  | n + 1, v, w =>
    match v, w with
    | .vnil, .vnil => some true
    | .vnil, _ => some false
    | _, .vnil => some false
    | _, _ =>
      if typeOf v ≠ typeOf w then some false
      else
        match v, w with
        | .vbool a, .vbool b => some (a == b)
        | .vint _ a, .vint _ b => some (a == b)
        | .vuint _ a, .vuint _ b => some (a == b)
        | .vfloat32 a, .vfloat32 b => some (F64.f64eq a b)
        | .vfloat64 a, .vfloat64 b => some (F64.f64eq a b)
        | .vcomplex64 a b, .vcomplex64 c d => some (F64.f64eq a c && F64.f64eq b d)
        | .vcomplex128 a b, .vcomplex128 c d => some (F64.f64eq a c && F64.f64eq b d)
        | .vstring a, .vstring b => some (a == b)
        | .vtime a, .vtime b => some (a == b)
        | .vstruct _ _ _ fv1, .vstruct _ _ _ fv2 =>
          if fv1.length ≠ fv2.length then some false
          else optAll (fun p => deepEqual heap n p.1 p.2) (fv1.zip fv2)
        | .vslice _ a1 es1, .vslice _ a2 es2 =>
          if a1.isNone != a2.isNone then some false
          else if es1.length ≠ es2.length then some false
          else if a1 == a2 then some true
          else optAll (fun p => deepEqual heap n p.1 p.2) (es1.zip es2)
        | .vmap _ _ a1 en1, .vmap _ _ a2 en2 =>
          if a1.isNone != a2.isNone then some false
          else if en1.length ≠ en2.length then some false
          else if a1 == a2 then some true
          else
            optAll
              (fun p =>
                match mapLookup n p.1 en2 with
                | none => none
                | some none => some false
                | some (some w2) => deepEqual heap n p.2 w2)
              en1
        | .vptr _ a1, .vptr _ a2 =>
          if a1 == a2 then some true
          else
            match a1, a2 with
            | some x, some y => deepEqual heap n (heapGet heap x) (heapGet heap y)
            | _, _ => some false
        | .vfunc _ a1, .vfunc _ a2 => some (a1 == none && a2 == none)
        | .vchan _ a1, .vchan _ a2 => some (a1 == a2)
        | _, _ => some false

/-- Test whether a value equals the zero value of its type: the model of
`reflect.DeepEqual(id, reflect.Zero(fieldValue.Type()).Interface())` used
by getObjectID, expressed as a direct zero test instead of materialising
the zero value (the two are pointwise equal: zero references are nil,
zero scalars are 0/""/false, a zero struct has zero fields, and DeepEqual
against the zero is exactly the conjunction of these tests; a NaN float
field is not zero because NaN is not DeepEqual to 0). -/
def isZeroVal : Nat → GoVal → Option Bool
  | 0, _ => none
  | n + 1, v =>
    match v with
    | .vnil => some true
    | .vbool b => some (b == false)
    | .vint _ a => some (a == 0)
    | .vuint _ a => some (a == 0)
    | .vfloat32 x => some (F64.f64eq x (F64.fin 0))
    | .vfloat64 x => some (F64.f64eq x (F64.fin 0))
    | .vcomplex64 a b => some (F64.f64eq a (F64.fin 0) && F64.f64eq b (F64.fin 0))
    | .vcomplex128 a b => some (F64.f64eq a (F64.fin 0) && F64.f64eq b (F64.fin 0))
    | .vstring s => some (s == "")
    | .vtime t => some (t == 0)
    | .vstruct _ _ _ fvals => optAll (fun f => isZeroVal n f) fvals
    | .vslice _ addr _ => some (addr == none)
    | .vmap _ _ addr _ => some (addr == none)
    | .vptr _ addr => some (addr == none)
    | .vfunc _ addr => some (addr == none)
    | .vchan _ addr => some (addr == none)

/-- Rendering of a map key by `fmt.Sprintf("%v", key)`, as used to build
map entry paths.  Only the formats exercised by the claims (strings,
integers, booleans) are rendered; other kinds get a placeholder (their
rendering influences only the Path string of diffs at such keys, which no
claim inspects). -/
def goSprintV : GoVal → String
  | .vstring s => s
  | .vint _ n => toString n
  | .vuint _ n => toString n
  | .vbool b => if b then "true" else "false"
  | _ => "?"

/-- strconv.Itoa for the slice index (always non-negative here). -/
def itoa (i : Nat) : String := toString i

/-- White-space test for tag trimming (strings.TrimSpace; diff tags only
ever carry ASCII spacing). -/
def isSpaceChar (c : Char) : Bool :=
  c == ' ' || c == '\t' || c == '\n' || c == '\r'

/-- Trim white space from both ends of a string. -/
def trimStr (s : String) : String :=
  String.mk (((s.data.dropWhile isSpaceChar).reverse.dropWhile isSpaceChar).reverse)

/-- Split a string at commas (strings.Split with separator ","). -/
def splitCommaAux : List Char → List Char → List String
  | [], acc => [String.mk acc.reverse]
  | c :: cs, acc =>
    if c == ',' then String.mk acc.reverse :: splitCommaAux cs []
    else splitCommaAux cs (c :: acc)

/-- Split a string at commas. -/
def splitComma (s : String) : List String :=
  splitCommaAux s.data []

/-- hasDiffTag: split the diff tag at commas, trim whitespace, exact token
match. -/
def hasDiffTag (diffTag tagValue : String) : Bool :=
  if diffTag == "" then false
  else (splitComma diffTag).any (fun tag => trimStr tag == tagValue)

/-- isBasicKind: numeric, bool or string (`k <= reflect.Complex128 || k ==
reflect.String`). -/
def isBasicKind (k : GoKind) : Bool :=
  kindCode k ≤ 16 || k == .kString

/-- isNumericKind (`(k >= reflect.Int && k <= reflect.Float64) || k ==
reflect.Complex64 || k == reflect.Complex128`). -/
def isNumericKind (k : GoKind) : Bool :=
  (2 ≤ kindCode k && kindCode k ≤ 14) || k == .kComplex64 || k == .kComplex128

/-- isIntegerKind (`k >= reflect.Int && k <= reflect.Uintptr`). -/
def isIntegerKind (k : GoKind) : Bool :=
  2 ≤ kindCode k && kindCode k ≤ 12

/-- isFloatKind. -/
def isFloatKind (k : GoKind) : Bool :=
  k == .kFloat32 || k == .kFloat64

/-- isSignedIntKind (`k >= reflect.Int && k <= reflect.Int64`). -/
def isSignedIntKind (k : GoKind) : Bool :=
  2 ≤ kindCode k && kindCode k ≤ 6

/-- isUnsignedIntKind (`k >= reflect.Uint && k <= reflect.Uintptr`). -/
def isUnsignedIntKind (k : GoKind) : Bool :=
  7 ≤ kindCode k && kindCode k ≤ 12

/-- Value.Int(): the signed integer value widened to int64 (0 on other
kinds; only consulted behind signed-kind guards). -/
def goInt : GoVal → ℤ
  | .vint _ n => n
  | _ => 0

/-- Value.Uint(): the unsigned integer value widened to uint64. -/
def goUint : GoVal → ℕ
  | .vuint _ n => n
  | _ => 0

/-- Value.Float(): the float value widened to float64 (float32 to float64
widening is exact). -/
def goFloat : GoVal → F64
  | .vfloat32 x => x
  | .vfloat64 x => x
  | _ => F64.fin 0

/-- Value.Complex(): the complex value widened to complex128. -/
def goComplex : GoVal → F64 × F64
  | .vcomplex64 re im => (re, im)
  | .vcomplex128 re im => (re, im)
  | _ => (F64.fin 0, F64.fin 0)

/-- Model of complex128 equality (componentwise IEEE equality). -/
def c128eq (a b : F64 × F64) : Bool :=
  F64.f64eq a.1 b.1 && F64.f64eq a.2 b.2

/-- numericValuesEqual: compare two numeric values across different types
(same-category natively on the widened values; mixed signed/unsigned only
when the signed value is non-negative; integer against float after exact
float64 conversion of the integer; complex pairs componentwise). -/
def numericValuesEqual (leftVal rightVal : GoVal) : Bool :=
  let leftKind := kindOf leftVal
  let rightKind := kindOf rightVal
  if isSignedIntKind leftKind && isSignedIntKind rightKind then
    goInt leftVal == goInt rightVal
  else if isUnsignedIntKind leftKind && isUnsignedIntKind rightKind then
    goUint leftVal == goUint rightVal
  else if isFloatKind leftKind && isFloatKind rightKind then
    F64.f64eq (goFloat leftVal) (goFloat rightVal)
  else if isSignedIntKind leftKind && isUnsignedIntKind rightKind then
    let leftInt := goInt leftVal
    let rightUint := goUint rightVal
    if leftInt < 0 then false else leftInt.toNat == rightUint
  else if isUnsignedIntKind leftKind && isSignedIntKind rightKind then
    let leftUint := goUint leftVal
    let rightInt := goInt rightVal
    if rightInt < 0 then false else leftUint == rightInt.toNat
  else if isIntegerKind leftKind && isFloatKind rightKind then
    let leftFloat :=
      if isSignedIntKind leftKind then int64ToF64 (goInt leftVal)
      else uint64ToF64 (goUint leftVal)
    F64.f64eq leftFloat (goFloat rightVal)
  else if isFloatKind leftKind && isIntegerKind rightKind then
    let rightFloat :=
      if isSignedIntKind rightKind then int64ToF64 (goInt rightVal)
      else uint64ToF64 (goUint rightVal)
    F64.f64eq (goFloat leftVal) rightFloat
  else if (leftKind == .kComplex64 || leftKind == .kComplex128) &&
      (rightKind == .kComplex64 || rightKind == .kComplex128) then
    c128eq (goComplex leftVal) (goComplex rightVal)
  else false

/-- Test for the untyped nil interface (`!reflect.ValueOf(v).IsValid()`). -/
def GoVal.isVnil : GoVal → Bool
  | .vnil => true
  | _ => false

/-- ChangeType constants (ADDED / REMOVED / UPDATED / ID_MISMATCH). -/
inductive ChangeType where
  | added | removed | updated | idMismatch
deriving DecidableEq, Repr

/-- Comparison errors (the `error` results of comparators/handlers). -/
abbrev GoErr := String

/-- The four diff record shapes of the library: the base `Diff`
{Path, Left, Right} and the `MapDiff` / `SliceDiff` / `StructDiff`
records that embed it.  A Go `nil` in Left/Right is `GoVal.vnil`. -/
inductive DiffRec where
  | base (path : String) (left right : GoVal)
  | mapD (path : String) (left right : GoVal) (key : GoVal) (change : ChangeType)
  | sliceD (path : String) (left right : GoVal) (index : Nat) (change : ChangeType)
  | structD (path : String) (left right : GoVal) (fieldName : String) (change : ChangeType)

/-- Diff accumulator (`result.Diffs`, append-only). -/
abbrev DiffList := List DiffRec

/-- The visited pointer-pair set (`config.visitedPairs`), threaded
explicitly; the push/pop mutation of comparePointers becomes cons/erase. -/
abbrev Visited := List (Nat × Nat)

/-- Recursion entry passed to a type handler: the engine's compareValues
with config and visited-set closed over (a Go handler receives `config`
and calls `compareValues(path, l, r, result, config)`). -/
abbrev HRecFn := String → GoVal → GoVal → DiffList → Option (DiffList × Option GoErr)

/-- TypeHandler: CanHandle claims a type; Compare performs the comparison,
optionally recursing through the supplied engine entry. -/
structure TypeHandler where
  CanHandle : GoTy → Bool
  Compare : HRecFn → GoVal → GoVal → String → DiffList → Option (DiffList × Option GoErr)

/-- CompareConfig.  `visitedPairs` is threaded separately as `Visited`.
Custom comparators are modelled as closed functions returning Go's
`(bool, error)` pair (the source also passes `config` through to them;
a model comparator simply captures anything it needs).  The
`CompareNumericValues` flag is read by the current compareValues; the
snapshot's types.go revision predates that field but its consumer
(`WithCompareNumericValues`, compareValues) fixes its meaning. -/
structure CompareConfig where
  IgnoreFields : List String
  IDFieldNames : List String
  IgnoreSliceOrder : Bool
  CompareNumericValues : Bool
  CustomComparators : List (GoTy × (GoVal → GoVal → Bool × Option GoErr))
  TypeHandlers : List TypeHandler
  MaxDepth : ℤ
  ignoreFieldsSet : Option (List String)
  currentDepth : ℤ

/-- TimeHandler: claims time.Time, errors if handed non-time values,
otherwise diffs by `time.Time.Equal` (instant comparison). -/
def TimeHandler : TypeHandler where
  CanHandle := fun typ => typ == .tTime
  Compare := fun _ left right path result =>
    match left, right with
    | .vtime leftTime, .vtime rightTime =>
      if !(leftTime == rightTime) then
        some (result ++ [.base path left right], none)
      else some (result, none)
    | _, _ =>
      some (result, some "TimeHandler received non-time values")

/-- InterfaceHandler: claims interface types (never matched by a dynamic
type, so inert in the engine); nil handling, then recursion into the
underlying values — model values are already the unwrapped dynamic
values, so `leftVal.Elem().Interface()` is the value itself. -/
def InterfaceHandler : TypeHandler where
  CanHandle := fun typ => kindOfTy typ == .kInterface
  Compare := fun rec left right path result =>
    let leftIsNil := left.isVnil
    let rightIsNil := right.isVnil
    if leftIsNil && rightIsNil then some (result, none)
    else if leftIsNil then some (result ++ [.base path .vnil right], none)
    else if rightIsNil then some (result ++ [.base path left .vnil], none)
    else rec path left right result

/-- FunctionHandler: functions compare by pointer identity; nil vs
non-nil is a diff. -/
def FunctionHandler : TypeHandler where
  CanHandle := fun typ => kindOfTy typ == .kFunc
  Compare := fun _ left right path result =>
    if left.isVnil && right.isVnil then some (result, none)
    else if left.isVnil || right.isVnil then
      some (result ++ [.base path left right], none)
    else
      match left, right with
      | .vfunc _ la, .vfunc _ ra =>
        if la == none && ra == none then some (result, none)
        else if la == none || ra == none then
          some (result ++ [.base path left right], none)
        else if la.getD 0 ≠ ra.getD 0 then
          some (result ++ [.base path left right], none)
        else some (result, none)
      | _, _ => some (result, none)

/-- ChannelHandler: `left != right` — interface equality, which for the
channel values the dispatcher routes here is reference identity. -/
def ChannelHandler : TypeHandler where
  CanHandle := fun typ => kindOfTy typ == .kChan
  Compare := fun _ left right path result =>
    match left, right with
    | .vchan lt la, .vchan rt ra =>
      if !(lt == rt && la == ra) then some (result ++ [.base path left right], none)
      else some (result, none)
    | _, _ =>
      if !(left.isVnil && right.isVnil) then
        some (result ++ [.base path left right], none)
      else some (result, none)

/-- DefaultTypeHandlers: time, interface, function, channel — in
registration order (first match wins). -/
def DefaultTypeHandlers : List TypeHandler :=
  [TimeHandler, InterfaceHandler, FunctionHandler, ChannelHandler]

/-- DefaultCompareConfig: everything off/empty except the default type
handlers (the visited map is created empty by the entry points). -/
def DefaultCompareConfig : CompareConfig where
  IgnoreFields := []
  IDFieldNames := []
  IgnoreSliceOrder := false
  CompareNumericValues := false
  CustomComparators := []
  TypeHandlers := DefaultTypeHandlers
  MaxDepth := 0
  ignoreFieldsSet := none
  currentDepth := 0

/-- CompareOption mutates a config. -/
abbrev CompareOption := CompareConfig → CompareConfig

/-- WithIgnoreFields sets the fields to ignore during comparison. -/
def WithIgnoreFields (fields : List String) : CompareOption :=
  fun c => { c with IgnoreFields := fields }

/-- WithIgnoreSliceOrder enables ignoring slice element order. -/
def WithIgnoreSliceOrder : CompareOption :=
  fun c => { c with IgnoreSliceOrder := true }

/-- WithCompareNumericValues enables cross-type numeric comparison. -/
def WithCompareNumericValues : CompareOption :=
  fun c => { c with CompareNumericValues := true }

/-- WithCustomComparators sets the custom comparator table. -/
def WithCustomComparators
    (comparators : List (GoTy × (GoVal → GoVal → Bool × Option GoErr))) : CompareOption :=
  fun c => { c with CustomComparators := comparators }

/-- WithTypeHandlers sets the type handler list. -/
def WithTypeHandlers (handlers : List TypeHandler) : CompareOption :=
  fun c => { c with TypeHandlers := handlers }

/-- WithMaxDepth sets the maximum recursion depth (0 = unlimited). -/
def WithMaxDepth (depth : ℤ) : CompareOption :=
  fun c => { c with MaxDepth := depth }

/-- Defined name of a struct type (reflect.Type.Name), used by
isFieldIgnored's type-qualified pattern. -/
def tyName : GoTy → String
  | .tStruct name _ => name
  | .tTime => "Time"
  | _ => ""

/-- IsNil of a pointer-kind value. -/
def isNilPtr : GoVal → Bool
  | .vptr _ a => a == none
  | _ => false

/-- Full engine recursion entry: compareValues one fuel level down. -/
abbrev RecFn := String → GoVal → GoVal → DiffList → CompareConfig → Visited →
  Option (DiffList × Option GoErr)

section CurrentEngine

variable (heap : Heap)

/-- handleInvalidValues: both invalid → handled with no diff; one invalid
→ handled with a one-sided base diff; both valid → not handled. -/
def handleInvalidValues (path : String) (left right : GoVal) (result : DiffList) :
    Bool × DiffList :=
  if left.isVnil && right.isVnil then (true, result)
  else if left.isVnil then (true, result ++ [.base path .vnil right])
  else if right.isVnil then (true, result ++ [.base path left .vnil])
  else (false, result)

/-- isFieldIgnored: field path, simple field name, or type-qualified
`TypeName.field` match against IgnoreFields, via the precomputed set when
present, else by slice search. -/
def isFieldIgnored (fieldPath fieldName : String) (structType : GoTy)
    (config : CompareConfig) : Bool :=
  if config.IgnoreFields.length == 0 then false
  else
    match config.ignoreFieldsSet with
    | some s =>
      if s.contains fieldPath then true
      else if s.contains fieldName then true
      else
        let structTypeName := tyName structType
        if structTypeName ≠ "" then
          s.contains (structTypeName ++ "." ++ fieldName)
        else false
    | none =>
      if config.IgnoreFields.contains fieldPath then true
      else if config.IgnoreFields.contains fieldName then true
      else
        let structTypeName := tyName structType
        if structTypeName ≠ "" then
          config.IgnoreFields.contains (structTypeName ++ "." ++ fieldName)
        else false

/-- Ignored-path test of compareValues: the precomputed set when present,
else a slice search of IgnoreFields. -/
def pathIgnored (config : CompareConfig) (path : String) : Bool :=
  match config.ignoreFieldsSet with
  | some s => s.contains path
  | none => config.IgnoreFields.contains path

/-- Shared-reference early exit of compareValues: both non-nil, same
type, reference kind (pointer/map/slice/chan/func) and equal
`Value.Pointer()`. -/
def sameReference (left right : GoVal) : Bool :=
  !left.isVnil && !right.isVnil && typeOf left == typeOf right &&
    (match kindOf left with
     | .kPointer | .kMap | .kSlice | .kChan | .kFunc =>
       refPointer left == refPointer right
     | _ => false)

/-- The locally overridden config built by compareStructs for a slice
field tagged `ignoreOrder` (the current revision's struct literal: fields
not listed — IDFieldNames, CompareNumericValues — are zero-valued;
visitedPairs is shared, which the model expresses by threading the
visited set separately). -/
def ignoreOrderConfig (config : CompareConfig) : CompareConfig where
  IgnoreFields := config.IgnoreFields
  IDFieldNames := []
  IgnoreSliceOrder := true
  CompareNumericValues := false
  CustomComparators := config.CustomComparators
  TypeHandlers := config.TypeHandlers
  MaxDepth := config.MaxDepth
  ignoreFieldsSet := config.ignoreFieldsSet
  currentDepth := config.currentDepth

/-- Element type of a slice value (`leftVal.Type().Elem()`). -/
def elemTyOf : GoVal → GoTy
  | .vslice t _ _ => t
  | _ => .tIface

/-- Elements of a slice value (empty for a nil slice and, inertly, for
non-slice operands that the dispatch makes impossible). -/
def sliceElems : GoVal → List GoVal
  | .vslice _ _ es => es
  | _ => []

/-- Inner j-loop of compareSlicesUnordered: find the first unmatched
right element deeply equal to leftElem and mark it; `some none` = no
match, `some (some flags)` = matched with updated flags, `none` = fuel
exhausted.  The right elements are zipped with their matched flags
(`rightMatched` in the source). -/
def markMatch (n : Nat) (leftElem : GoVal) :
    List (GoVal × Bool) → Option (Option (List (GoVal × Bool)))
  | [] => some none
  | (e, matched) :: rest =>
    if matched then
      match markMatch n leftElem rest with
      | none => none
      | some none => some none
      | some (some rest2) => some (some ((e, matched) :: rest2))
    else
      match deepEqual heap n leftElem e with
      | none => none
      | some true => some (some ((e, true) :: rest))
      | some false =>
        match markMatch n leftElem rest with
        | none => none
        | some none => some none
        | some (some rest2) => some (some ((e, false) :: rest2))

/-- Outer i-loop of compareSlicesUnordered: greedy first-match; an
unmatched left element emits a Removed-style base diff (value only, no
index). -/
def unorderedLeftLoop (n : Nat) (path : String) :
    List GoVal → List (GoVal × Bool) → DiffList →
    Option (DiffList × List (GoVal × Bool))
  | [], flags, result => some (result, flags)
  | leftElem :: les, flags, result =>
    match markMatch heap n leftElem flags with
    | none => none
    | some none =>
      unorderedLeftLoop n path les flags (result ++ [.base path leftElem .vnil])
    | some (some flags2) => unorderedLeftLoop n path les flags2 result

/-- compareSlicesUnordered: greedy DeepEqual matching; unmatched residue
on the left emits Removed diffs, on the right Added diffs (base diffs,
value only). -/
def compareSlicesUnordered (n : Nat) (path : String) (leftVal rightVal : GoVal)
    (result : DiffList) : Option (DiffList × Option GoErr) :=
  let les := sliceElems leftVal
  let res2 := sliceElems rightVal
  let rightMatched := res2.map (fun e => (e, false))
  match unorderedLeftLoop heap n path les rightMatched result with
  | none => none
  | some (result2, flags) =>
    some (result2 ++ (flags.filter (fun p => !p.2)).map (fun p => .base path .vnil p.1),
      none)

/-- compareSlicesSimple (small-slice strategy): delegates to the unified
unordered comparison. -/
def compareSlicesSimple (n : Nat) (path : String) (leftVal rightVal : GoVal)
    (result : DiffList) : Option (DiffList × Option GoErr) :=
  compareSlicesUnordered heap n path leftVal rightVal result

/-- compareSlicesWithDeepEqual (non-comparable element strategy):
delegates to the unified unordered comparison. -/
def compareSlicesWithDeepEqual (n : Nat) (path : String) (leftVal rightVal : GoVal)
    (result : DiffList) : Option (DiffList × Option GoErr) :=
  compareSlicesUnordered heap n path leftVal rightVal result

/-- Increment the multiset count of an element in an association list
keyed by Go equality (`counts[elem]++` on a Go map): bump the first
matching entry, else append a fresh one (a NaN key matches nothing, so
each NaN occurrence creates its own entry, as in a Go map). -/
def countsAdd (n : Nat) (elem : GoVal) :
    List (GoVal × Nat) → Option (List (GoVal × Nat))
  | [] => some [(elem, 1)]
  | (k, c) :: rest =>
    match goEqB n elem k with
    | none => none
    | some true => some ((k, c + 1) :: rest)
    | some false =>
      match countsAdd n elem rest with
      | none => none
      | some rest2 => some ((k, c) :: rest2)

/-- Build the value → count multiset of a list of elements. -/
def buildCounts (n : Nat) : List GoVal → Option (List (GoVal × Nat))
  | [] => some []
  | e :: es =>
    match buildCounts n es with
    | none => none
    | some counts => countsAdd n e counts

/-- Read a count from a counts table (`counts[elem]`, 0 when absent). -/
def countLookup (n : Nat) (elem : GoVal) :
    List (GoVal × Nat) → Option Nat
  | [] => some 0
  | (k, c) :: rest =>
    match goEqB n elem k with
    | none => none
    | some true => some c
    | some false => countLookup n elem rest

/-- Removed-side loop of the counting strategy: for every value whose
left count exceeds its right count, emit that many Removed diffs. -/
def countsRemovedLoop (n : Nat) (path : String) (rightCounts : List (GoVal × Nat)) :
    List (GoVal × Nat) → DiffList → Option DiffList
  | [], result => some result
  | (elem, leftCount) :: rest, result =>
    match countLookup n elem rightCounts with
    | none => none
    | some rightCount =>
      let result2 :=
        if leftCount > rightCount then
          result ++ List.replicate (leftCount - rightCount) (DiffRec.base path elem .vnil)
        else result
      countsRemovedLoop n path rightCounts rest result2

/-- Added-side loop of the counting strategy. -/
def countsAddedLoop (n : Nat) (path : String) (leftCounts : List (GoVal × Nat)) :
    List (GoVal × Nat) → DiffList → Option DiffList
  | [], result => some result
  | (elem, rightCount) :: rest, result =>
    match countLookup n elem leftCounts with
    | none => none
    | some leftCount =>
      let result2 :=
        if rightCount > leftCount then
          result ++ List.replicate (rightCount - leftCount) (DiffRec.base path .vnil elem)
        else result
      countsAddedLoop n path leftCounts rest result2

/-- Multiset count-reconciliation of compareSlicesByValue (its large-
slice path, factored out of the source's inline loops; the slices.Grow
capacity preallocation has no observable effect and is omitted). -/
def sliceCountDiffs (n : Nat) (path : String) (les res2 : List GoVal)
    (result : DiffList) : Option (DiffList × Option GoErr) :=
  match buildCounts n les, buildCounts n res2 with
  | some leftCounts, some rightCounts =>
    match countsRemovedLoop n path rightCounts leftCounts result with
    | none => none
    | some result2 =>
      match countsAddedLoop n path leftCounts rightCounts result2 with
      | none => none
      | some result3 => some (result3, none)
  | _, _ => none

/-- compareSlicesByValue: non-comparable element types always use the
DeepEqual strategy; slices of at most 5 elements on both sides use the
simple strategy; larger comparable slices use multiset count
reconciliation. -/
def compareSlicesByValue (n : Nat) (path : String) (leftVal rightVal : GoVal)
    (result : DiffList) : Option (DiffList × Option GoErr) :=
  let elemType := elemTyOf leftVal
  if !tyComparable elemType then
    compareSlicesWithDeepEqual heap n path leftVal rightVal result
  else
    let leftLen := (sliceElems leftVal).length
    let rightLen := (sliceElems rightVal).length
    if leftLen ≤ 5 && rightLen ≤ 5 then
      compareSlicesSimple heap n path leftVal rightVal result
    else
      sliceCountDiffs n path (sliceElems leftVal) (sliceElems rightVal) result

/-- compareSlicesAdvanced: invalid/nil-side and type-mismatch gates in
front of value-based matching. -/
def compareSlicesAdvanced (n : Nat) (path : String) (leftVal rightVal : GoVal)
    (result : DiffList) : Option (DiffList × Option GoErr) :=
  if leftVal.isVnil && rightVal.isVnil then some (result, none)
  else if leftVal.isVnil then some (result ++ [.base path .vnil rightVal], none)
  else if rightVal.isVnil then some (result ++ [.base path leftVal .vnil], none)
  else if !(typeOf leftVal == typeOf rightVal) then
    some (result ++ [.base path leftVal rightVal], none)
  else compareSlicesByValue heap n path leftVal rightVal result

/-- Index loop of the order-sensitive compareSlices: `rem` counts the
remaining indices of `0 ..< max(leftLen, rightLen)`, `i` is the current
index.  A basic-kind element pair that is not deeply equal emits an
Updated SliceDiff at its index; otherwise the dispatcher recurses at path
`parent[i]`; one-sided elements emit Removed/Added SliceDiffs. -/
def sliceOrderedLoop (rec : RecFn) (n : Nat) (path : String)
    (les res2 : List GoVal) (config : CompareConfig) (visited : Visited) :
    Nat → Nat → DiffList → Option (DiffList × Option GoErr)
  | 0, _, result => some (result, none)
  | rem + 1, i, result =>
    match les.get? i, res2.get? i with
    | some leftElem, some rightElem =>
      if isBasicKind (kindOf leftElem) then
        match deepEqual heap n leftElem rightElem with
        | none => none
        | some false =>
          sliceOrderedLoop rec n path les res2 config visited rem (i + 1)
            (result ++ [.sliceD path leftElem rightElem i .updated])
        | some true =>
          let elementPath := path ++ "[" ++ itoa i ++ "]"
          match rec elementPath leftElem rightElem result config visited with
          | none => none
          | some (result2, some e) => some (result2, some e)
          | some (result2, none) =>
            sliceOrderedLoop rec n path les res2 config visited rem (i + 1) result2
      else
        let elementPath := path ++ "[" ++ itoa i ++ "]"
        match rec elementPath leftElem rightElem result config visited with
        | none => none
        | some (result2, some e) => some (result2, some e)
        | some (result2, none) =>
          sliceOrderedLoop rec n path les res2 config visited rem (i + 1) result2
    | some leftElem, none =>
      sliceOrderedLoop rec n path les res2 config visited rem (i + 1)
        (result ++ [.sliceD path leftElem .vnil i .removed])
    | none, some rightElem =>
      sliceOrderedLoop rec n path les res2 config visited rem (i + 1)
        (result ++ [.sliceD path .vnil rightElem i .added])
    | none, none =>
      sliceOrderedLoop rec n path les res2 config visited rem (i + 1) result

/-- compareSlices: order-insensitive mode goes to compareSlicesAdvanced,
otherwise the order-sensitive index walk. -/
def compareSlices (rec : RecFn) (n : Nat) (path : String)
    (leftVal rightVal : GoVal) (result : DiffList) (config : CompareConfig)
    (visited : Visited) : Option (DiffList × Option GoErr) :=
  if config.IgnoreSliceOrder then
    compareSlicesAdvanced heap n path leftVal rightVal result
  else
    let les := sliceElems leftVal
    let res2 := sliceElems rightVal
    let maxLen := max res2.length les.length
    sliceOrderedLoop heap rec n path les res2 config visited maxLen 0 result

/-- Field loop of compareStructs: walk the field descriptors and the two
field-value lists in parallel (reflect's `typ.Field(i)` /
`leftVal.Field(i)` / `rightVal.Field(i)`).  Unexported fields are
skipped; ignored fields (by path/name/type-qualified name or `ignore`
tag) are skipped; slice-typed fields route to compareSlices (with the
order-insensitive override when tagged `ignoreOrder`); other fields that
are not deeply equal either recurse (pointer/struct/map/interface static
kind) or emit an Updated StructDiff directly. -/
def structFieldsLoop (rec : RecFn) (n : Nat) (path : String) (typ : GoTy)
    (config : CompareConfig) (visited : Visited) :
    List FieldTy → List GoVal → List GoVal → DiffList →
    Option (DiffList × Option GoErr)
  | [], _, _, result => some (result, none)
  | _, [], _, result => some (result, none)
  | _, _, [], result => some (result, none)
  | fty :: ftys, lv :: lvs, rv :: rvs, result =>
    if !fty.fexported then
      structFieldsLoop rec n path typ config visited ftys lvs rvs result
    else
      let fieldPath := if path == "" then fty.fname else path ++ "." ++ fty.fname
      let diffTag := fty.ftag
      if isFieldIgnored fieldPath fty.fname typ config || hasDiffTag diffTag "ignore" then
        structFieldsLoop rec n path typ config visited ftys lvs rvs result
      else if kindOfTy fty.fty == .kSlice then
        let modifiedConfig :=
          if hasDiffTag diffTag "ignoreOrder" then ignoreOrderConfig config else config
        match compareSlices heap rec n fieldPath lv rv result modifiedConfig visited with
        | none => none
        | some (result2, some e) => some (result2, some e)
        | some (result2, none) =>
          structFieldsLoop rec n path typ config visited ftys lvs rvs result2
      else
        match deepEqual heap n lv rv with
        | none => none
        | some true => structFieldsLoop rec n path typ config visited ftys lvs rvs result
        | some false =>
          let leftKind := kindOfTy fty.fty
          if leftKind == .kPointer || leftKind == .kStruct ||
              leftKind == .kMap || leftKind == .kInterface then
            match rec fieldPath lv rv result config visited with
            | none => none
            | some (result2, some e) => some (result2, some e)
            | some (result2, none) =>
              structFieldsLoop rec n path typ config visited ftys lvs rvs result2
          else
            structFieldsLoop rec n path typ config visited ftys lvs rvs
              (result ++ [.structD fieldPath lv rv fty.fname .updated])

/-- compareStructs (current revision): the plain field walk.  time.Time
values — structs with only unexported fields — contribute nothing. -/
def compareStructs (rec : RecFn) (n : Nat) (path : String)
    (leftVal rightVal : GoVal) (result : DiffList) (config : CompareConfig)
    (visited : Visited) : Option (DiffList × Option GoErr) :=
  match leftVal, rightVal with
  | .vstruct lname lcmp ftys fvals, .vstruct _ _ _ gvals =>
    structFieldsLoop heap rec n path (.tStruct lname lcmp) config visited ftys fvals gvals result
  | _, _ => some (result, none)

/-- Left-key loop of compareMaps.  Iterates the left entries; a key
absent on the right emits Removed; a present key with a different value
type emits Updated (unless numeric coercion resolves it); a basic-kind
value pair diff-checks with DeepEqual; complex values recurse through the
dispatcher into a scratch buffer whose contents are spliced in.  (Go
re-reads the entry's value with `MapIndex(key)`, which equals the entry
value for every map a running Go program can build; for a NaN key that
re-read is invalid and the original panics — the model simply uses the
entry value.) -/
def mapLeftLoop (rec : RecFn) (n : Nat) (path : String)
    (rentries : List (GoVal × GoVal)) (config : CompareConfig) (visited : Visited) :
    List (GoVal × GoVal) → DiffList → Option (DiffList × Option GoErr)
  | [], result => some (result, none)
  | (key, leftInterface) :: rest, result =>
    let keyStr := goSprintV key
    let elementPath := path ++ "[" ++ keyStr ++ "]"
    match mapLookup n key rentries with
    | none => none
    | some none =>
      mapLeftLoop rec n path rentries config visited rest
        (result ++ [.mapD elementPath leftInterface .vnil key .removed])
    | some (some rightInterface) =>
      if !(typeOf leftInterface == typeOf rightInterface) then
        if config.CompareNumericValues && isNumericKind (kindOf leftInterface) &&
            isNumericKind (kindOf rightInterface) then
          if !numericValuesEqual leftInterface rightInterface then
            mapLeftLoop rec n path rentries config visited rest
              (result ++ [.mapD elementPath leftInterface rightInterface key .updated])
          else
            mapLeftLoop rec n path rentries config visited rest result
        else
          mapLeftLoop rec n path rentries config visited rest
            (result ++ [.mapD elementPath leftInterface rightInterface key .updated])
      else if isBasicKind (kindOf leftInterface) then
        match deepEqual heap n leftInterface rightInterface with
        | none => none
        | some false =>
          mapLeftLoop rec n path rentries config visited rest
            (result ++ [.mapD elementPath leftInterface rightInterface key .updated])
        | some true => mapLeftLoop rec n path rentries config visited rest result
      else
        match rec elementPath leftInterface rightInterface [] config visited with
        | none => none
        | some (_, some e) => some (result, some e)
        | some (tempDiffs, none) =>
          mapLeftLoop rec n path rentries config visited rest
            (if tempDiffs.length > 0 then result ++ tempDiffs else result)

/-- Added-key loop of compareMaps: right-side keys absent on the left. -/
def mapAddedLoop (n : Nat) (path : String) (lentries : List (GoVal × GoVal)) :
    List (GoVal × GoVal) → DiffList → Option DiffList
  | [], result => some result
  | (key, rightInterface) :: rest, result =>
    match mapLookup n key lentries with
    | none => none
    | some (some _) => mapAddedLoop n path lentries rest result
    | some none =>
      let keyStr := goSprintV key
      let elementPath := path ++ "[" ++ keyStr ++ "]"
      mapAddedLoop n path lentries rest
        (result ++ [.mapD elementPath .vnil rightInterface key .added])

/-- compareMaps: key-wise diff (removed/updated via the left loop, added
via the right loop). -/
def compareMaps (rec : RecFn) (n : Nat) (path : String)
    (leftVal rightVal : GoVal) (result : DiffList) (config : CompareConfig)
    (visited : Visited) : Option (DiffList × Option GoErr) :=
  match leftVal, rightVal with
  | .vmap _ _ _ lentries, .vmap _ _ _ rentries =>
    match mapLeftLoop heap rec n path rentries config visited lentries result with
    | none => none
    | some (result2, some e) => some (result2, some e)
    | some (result2, none) =>
      match mapAddedLoop n path lentries rentries result2 with
      | none => none
      | some result3 => some (result3, none)
  | _, _ => some (result, none)

/-- comparePointers: nil/nil is equal; one-sided nil recurses with the
generic nil; otherwise the (left, right) address pair guards a recursion
into the dereferenced targets — the pair is pushed before the recursion
and popped afterwards on every path, error return included.  The
resulting visited set is returned so the push/pop pairing is visible
(the source mutates `config.visitedPairs` in place). -/
def comparePointers (rec : RecFn) (path : String) (leftVal rightVal : GoVal)
    (result : DiffList) (config : CompareConfig) (visited : Visited) :
    Option ((DiffList × Option GoErr) × Visited) :=
  match leftVal, rightVal with
  | .vptr _ la, .vptr _ ra =>
    match la, ra with
    | none, none => some ((result, none), visited)
    | none, some rb =>
      (rec path .vnil (heapGet heap rb) result config visited).map (fun o => (o, visited))
    | some lb, none =>
      (rec path (heapGet heap lb) .vnil result config visited).map (fun o => (o, visited))
    | some lb, some rb =>
      let pairKey := (lb, rb)
      if visited.contains pairKey then some ((result, none), visited)
      else
        let visited2 := pairKey :: visited
        match rec path (heapGet heap lb) (heapGet heap rb) result config visited2 with
        | none => none
        | some (result2, err) => some ((result2, err), visited2.erase pairKey)
  | _, _ => some ((result, none), visited)

/-- Body of compareValues (current revision), parameterised by the
engine one fuel level down: depth limiting, ignored paths, the shared-
reference early exit, invalid handling, type mismatch (with the nil-
pointer special case and optional cross-type numeric coercion), custom
comparators, type handlers, then dispatch by kind. -/
def compareValuesF (rec : RecFn) (n : Nat) (path : String) (left right : GoVal)
    (result : DiffList) (config : CompareConfig) (visited : Visited) :
    Option (DiffList × Option GoErr) :=
  if config.MaxDepth > 0 && config.currentDepth ≥ config.MaxDepth then
    some (result, none)
  else
    let config := if config.MaxDepth > 0 then
        { config with currentDepth := config.currentDepth + 1 }
      else config
    if pathIgnored config path then some (result, none)
    else if sameReference left right then some (result, none)
    else
      match handleInvalidValues path left right result with
      | (true, result2) => some (result2, none)
      | (false, _) =>
        let leftType := typeOf left
        let rightType := typeOf right
        if !(leftType == rightType) then
          if kindOf left == .kPointer && kindOf right == .kPointer &&
              isNilPtr left && isNilPtr right then
            some (result, none)
          else if config.CompareNumericValues && isNumericKind (kindOf left) &&
              isNumericKind (kindOf right) then
            if numericValuesEqual left right then some (result, none)
            else some (result ++ [.base path left right], none)
          else some (result ++ [.base path left right], none)
        else
          match config.CustomComparators.find? (fun p => p.1 == leftType) with
          | some cc =>
            let (equal, err) := cc.2 left right
            match err with
            | some e => some (result, some e)
            | none =>
              if !equal then some (result ++ [.base path left right], none)
              else some (result, none)
          | none =>
            match config.TypeHandlers.find? (fun h => h.CanHandle leftType) with
            | some handler =>
              handler.Compare (fun p l r res => rec p l r res config visited)
                left right path result
            | none =>
              match kindOf left with
              | .kStruct => compareStructs heap rec n path left right result config visited
              | .kSlice => compareSlices heap rec n path left right result config visited
              | .kMap => compareMaps heap rec n path left right result config visited
              | .kPointer =>
                (comparePointers heap rec path left right result config visited).map
                  (fun o => o.1)
              | _ =>
                if tyComparable (typeOf left) then
                  match goEqB n left right with
                  | none => none
                  | some eq =>
                    if !eq then some (result ++ [.base path left right], none)
                    else some (result, none)
                else
                  match deepEqual heap n left right with
                  | none => none
                  | some eq =>
                    if !eq then some (result ++ [.base path left right], none)
                    else some (result, none)

/-- compareValues tied over the fuel: fuel 0 is exhaustion, fuel n+1 runs
the body with the engine at fuel n (one unit per recursion level). -/
def compareValues : Nat → String → GoVal → GoVal → DiffList → CompareConfig →
    Visited → Option (DiffList × Option GoErr)
  | 0 => fun _ _ _ _ _ _ => none
  | n + 1 => fun path l r res cfg vis =>
    compareValuesF heap (compareValues n) n path l r res cfg vis

/-- Compare (current revision): apply the options to the default config,
prepare the ignore set and the depth counter, run the dispatcher on the
empty path, and surface either the diff list or the error (never both: a
nil result accompanies every error). -/
def Compare (fuel : Nat) (left right : GoVal) (opts : List CompareOption) :
    Option (Option DiffList × Option GoErr) :=
  let config := opts.foldl (fun c opt => opt c) DefaultCompareConfig
  let config :=
    if config.ignoreFieldsSet == none && config.IgnoreFields.length > 0 then
      { config with ignoreFieldsSet := some config.IgnoreFields }
    else config
  let config := { config with currentDepth := 0 }
  match compareValues heap fuel "" left right [] config [] with
  | none => none
  | some (_, some e) => some (none, some e)
  | some (diffs, none) => some (some diffs, none)

end CurrentEngine

namespace WithID

/-!
The earlier revision of the engine (`src/compare.go`): `Compare` /
`CompareWithConfig` entry points, no depth limiting, no precomputed
ignore set, no cross-type numeric coercion, and — the parts claim C2 is
about — `getObjectID` and the identity short-circuit at the head of
`compareStructs`.  `comparePointers` and the order-sensitive slice walk
are textually identical in both revisions and are shared (the root-
namespace definitions).  This revision's `compareSlicesSimple` and
`compareSlicesWithDeepEqual` carry the greedy first-match loop inline;
the loop is the same as `compareSlicesUnordered`, whose helpers are
reused.
-/

section OldEngine

variable (heap : Heap)

/-- isFieldIgnored (earlier revision): path, simple-name and
type-qualified matches by slice search. -/
def isFieldIgnored (fieldPath fieldName : String) (structType : GoTy)
    (config : CompareConfig) : Bool :=
  if config.IgnoreFields.length == 0 then false
  else if config.IgnoreFields.contains fieldPath then true
  else if config.IgnoreFields.contains fieldName then true
  else
    let structTypeName := tyName structType
    if structTypeName ≠ "" then
      config.IgnoreFields.contains (structTypeName ++ "." ++ fieldName)
    else false

/-- diff:"id"-tag pass of getObjectID: the first exported field tagged
`id` whose value is non-zero. -/
def getObjectIDTagLoop (n : Nat) :
    List FieldTy → List GoVal → Option (Option GoVal)
  | fty :: ftys, fv :: fvs =>
    if fty.fexported && hasDiffTag fty.ftag "id" then
      match isZeroVal n fv with
      | none => none
      | some false => some (some fv)
      | some true => getObjectIDTagLoop n ftys fvs
    else getObjectIDTagLoop n ftys fvs
  | _, _ => some none

/-- IDFieldNames pass of getObjectID: for each configured name in order,
the exported field of that name with a non-zero value. -/
def getObjectIDNameLoop (n : Nat) (ftys : List FieldTy) (fvals : List GoVal) :
    List String → Option (Option GoVal)
  | [] => some none
  | idFieldName :: names =>
    match (ftys.zip fvals).find? (fun p => p.1.fname == idFieldName) with
    | some (fty, fv) =>
      if fty.fexported then
        match isZeroVal n fv with
        | none => none
        | some false => some (some fv)
        | some true => getObjectIDNameLoop n ftys fvals names
      else getObjectIDNameLoop n ftys fvals names
    | none => getObjectIDNameLoop n ftys fvals names

/-- getObjectID: extract an identity from an object — dereference a
non-nil pointer, require a struct, try the `diff:"id"` tag first, then
the configured IDFieldNames; a zero-valued candidate does not count.
Returns Go's `(any, bool)` pair; `none` = fuel exhausted (in the
zero-value DeepEqual). -/
def getObjectID (n : Nat) (obj : GoVal) (config : CompareConfig) :
    Option (GoVal × Bool) :=
  if obj.isVnil then some (.vnil, false)
  else
    let valOpt : Option GoVal :=
      match obj with
      | .vptr _ none => none
      | .vptr _ (some a) => some (heapGet heap a)
      | v => some v
    match valOpt with
    | none => some (.vnil, false)
    | some val =>
      match val with
      | .vstruct _ _ ftys fvals =>
        match getObjectIDTagLoop n ftys fvals with
        | none => none
        | some (some id) => some (id, true)
        | some none =>
          match getObjectIDNameLoop n ftys fvals config.IDFieldNames with
          | none => none
          | some (some id) => some (id, true)
          | some none => some (.vnil, false)
      | _ => some (.vnil, false)

/-- The locally overridden config built by this revision's compareStructs
for a slice field tagged `ignoreOrder` (its struct literal lists
IgnoreFields, IDFieldNames, IgnoreSliceOrder, CustomComparators,
TypeHandlers and the shared visitedPairs; fields that only exist in the
later revision are zero-valued here). -/
def ignoreOrderConfig (config : CompareConfig) : CompareConfig where
  IgnoreFields := config.IgnoreFields
  IDFieldNames := config.IDFieldNames
  IgnoreSliceOrder := true
  CompareNumericValues := false
  CustomComparators := config.CustomComparators
  TypeHandlers := config.TypeHandlers
  MaxDepth := 0
  ignoreFieldsSet := none
  currentDepth := 0

/-- compareSlicesSimple (earlier revision): the greedy first-match loop,
inline in the source and identical to compareSlicesUnordered. -/
def compareSlicesSimple (n : Nat) (path : String) (leftVal rightVal : GoVal)
    (result : DiffList) : Option (DiffList × Option GoErr) :=
  let les := sliceElems leftVal
  let res2 := sliceElems rightVal
  let visitedFlags := res2.map (fun e => (e, false))
  match unorderedLeftLoop heap n path les visitedFlags result with
  | none => none
  | some (result2, flags) =>
    some (result2 ++ (flags.filter (fun p => !p.2)).map (fun p => .base path .vnil p.1),
      none)

/-- compareSlicesWithDeepEqual (earlier revision): the same greedy loop
for non-comparable element types. -/
def compareSlicesWithDeepEqual (n : Nat) (path : String) (leftVal rightVal : GoVal)
    (result : DiffList) : Option (DiffList × Option GoErr) :=
  compareSlicesSimple heap n path leftVal rightVal result

/-- compareSlicesByValue (earlier revision; config is passed through but
not consulted on this path).  Strategy choice identical to the current
revision; the counting loops are shared. -/
def compareSlicesByValue (n : Nat) (path : String) (leftVal rightVal : GoVal)
    (result : DiffList) (config : CompareConfig) :
    Option (DiffList × Option GoErr) :=
  let _ := config
  let elemType := elemTyOf leftVal
  if !tyComparable elemType then
    compareSlicesWithDeepEqual heap n path leftVal rightVal result
  else
    let leftLen := (sliceElems leftVal).length
    let rightLen := (sliceElems rightVal).length
    if leftLen ≤ 5 && rightLen ≤ 5 then
      compareSlicesSimple heap n path leftVal rightVal result
    else
      sliceCountDiffs n path (sliceElems leftVal) (sliceElems rightVal) result

/-- compareSlicesAdvanced (earlier revision). -/
def compareSlicesAdvanced (n : Nat) (path : String) (leftVal rightVal : GoVal)
    (result : DiffList) (config : CompareConfig) :
    Option (DiffList × Option GoErr) :=
  if leftVal.isVnil && rightVal.isVnil then some (result, none)
  else if leftVal.isVnil then some (result ++ [.base path .vnil rightVal], none)
  else if rightVal.isVnil then some (result ++ [.base path leftVal .vnil], none)
  else if !(typeOf leftVal == typeOf rightVal) then
    some (result ++ [.base path leftVal rightVal], none)
  else compareSlicesByValue heap n path leftVal rightVal result config

/-- compareSlices (earlier revision): as the current one, but the
advanced path receives the config. -/
def compareSlices (rec : RecFn) (n : Nat) (path : String)
    (leftVal rightVal : GoVal) (result : DiffList) (config : CompareConfig)
    (visited : Visited) : Option (DiffList × Option GoErr) :=
  if config.IgnoreSliceOrder then
    compareSlicesAdvanced heap n path leftVal rightVal result config
  else
    let les := sliceElems leftVal
    let res2 := sliceElems rightVal
    let maxLen := max res2.length les.length
    sliceOrderedLoop heap rec n path les res2 config visited maxLen 0 result

/-- Field loop of this revision's compareStructs (the part after the
identity check; differs from the current revision only in the ignore-
order config copy and the isFieldIgnored variant). -/
def structFieldsLoop (rec : RecFn) (n : Nat) (path : String) (typ : GoTy)
    (config : CompareConfig) (visited : Visited) :
    List FieldTy → List GoVal → List GoVal → DiffList →
    Option (DiffList × Option GoErr)
  | [], _, _, result => some (result, none)
  | _, [], _, result => some (result, none)
  | _, _, [], result => some (result, none)
  | fty :: ftys, lv :: lvs, rv :: rvs, result =>
    if !fty.fexported then
      structFieldsLoop rec n path typ config visited ftys lvs rvs result
    else
      let fieldPath := if path == "" then fty.fname else path ++ "." ++ fty.fname
      let diffTag := fty.ftag
      if isFieldIgnored fieldPath fty.fname typ config || hasDiffTag diffTag "ignore" then
        structFieldsLoop rec n path typ config visited ftys lvs rvs result
      else if kindOfTy fty.fty == .kSlice then
        let modifiedConfig :=
          if hasDiffTag diffTag "ignoreOrder" then ignoreOrderConfig config else config
        match compareSlices heap rec n fieldPath lv rv result modifiedConfig visited with
        | none => none
        | some (result2, some e) => some (result2, some e)
        | some (result2, none) =>
          structFieldsLoop rec n path typ config visited ftys lvs rvs result2
      else
        match deepEqual heap n lv rv with
        | none => none
        | some true => structFieldsLoop rec n path typ config visited ftys lvs rvs result
        | some false =>
          let leftKind := kindOfTy fty.fty
          if leftKind == .kPointer || leftKind == .kStruct ||
              leftKind == .kMap || leftKind == .kInterface then
            match rec fieldPath lv rv result config visited with
            | none => none
            | some (result2, some e) => some (result2, some e)
            | some (result2, none) =>
              structFieldsLoop rec n path typ config visited ftys lvs rvs result2
          else
            structFieldsLoop rec n path typ config visited ftys lvs rvs
              (result ++ [.structD fieldPath lv rv fty.fname .updated])

/-- compareStructs (earlier revision): extract both identities; when both
sides have one and they are not deeply equal, emit a single StructDiff
with ChangeTypeIDMismatch at the struct's own path (empty FieldName) and
stop; otherwise walk the fields. -/
def compareStructs (rec : RecFn) (n : Nat) (path : String)
    (leftVal rightVal : GoVal) (result : DiffList) (config : CompareConfig)
    (visited : Visited) : Option (DiffList × Option GoErr) :=
  match getObjectID heap n leftVal config, getObjectID heap n rightVal config with
  | some (leftID, leftHasID), some (rightID, rightHasID) =>
    let fieldsPart :=
      match leftVal, rightVal with
      | .vstruct lname lcmp ftys fvals, .vstruct _ _ _ gvals =>
        structFieldsLoop heap rec n path (.tStruct lname lcmp) config visited
          ftys fvals gvals result
      | _, _ => some (result, none)
    if leftHasID && rightHasID then
      match deepEqual heap n leftID rightID with
      | none => none
      | some false =>
        some (result ++ [.structD path leftVal rightVal "" .idMismatch], none)
      | some true => fieldsPart
    else fieldsPart
  | _, _ => none

/-- Left-key loop of this revision's compareMaps: no value-type-mismatch
branch — a basic-kind left value goes straight to the DeepEqual check. -/
def mapLeftLoop (rec : RecFn) (n : Nat) (path : String)
    (rentries : List (GoVal × GoVal)) (config : CompareConfig) (visited : Visited) :
    List (GoVal × GoVal) → DiffList → Option (DiffList × Option GoErr)
  | [], result => some (result, none)
  | (key, leftInterface) :: rest, result =>
    let keyStr := goSprintV key
    let elementPath := path ++ "[" ++ keyStr ++ "]"
    match mapLookup n key rentries with
    | none => none
    | some none =>
      mapLeftLoop rec n path rentries config visited rest
        (result ++ [.mapD elementPath leftInterface .vnil key .removed])
    | some (some rightInterface) =>
      if isBasicKind (kindOf leftInterface) then
        match deepEqual heap n leftInterface rightInterface with
        | none => none
        | some false =>
          mapLeftLoop rec n path rentries config visited rest
            (result ++ [.mapD elementPath leftInterface rightInterface key .updated])
        | some true => mapLeftLoop rec n path rentries config visited rest result
      else
        match rec elementPath leftInterface rightInterface [] config visited with
        | none => none
        | some (_, some e) => some (result, some e)
        | some (tempDiffs, none) =>
          mapLeftLoop rec n path rentries config visited rest
            (if tempDiffs.length > 0 then result ++ tempDiffs else result)

/-- compareMaps (earlier revision). -/
def compareMaps (rec : RecFn) (n : Nat) (path : String)
    (leftVal rightVal : GoVal) (result : DiffList) (config : CompareConfig)
    (visited : Visited) : Option (DiffList × Option GoErr) :=
  match leftVal, rightVal with
  | .vmap _ _ _ lentries, .vmap _ _ _ rentries =>
    match mapLeftLoop heap rec n path rentries config visited lentries result with
    | none => none
    | some (result2, some e) => some (result2, some e)
    | some (result2, none) =>
      match mapAddedLoop n path lentries rentries result2 with
      | none => none
      | some result3 => some (result3, none)
  | _, _ => some (result, none)

/-- Body of this revision's compareValues: ignored paths (slice search),
the shared-reference early exit, inline invalid handling, type mismatch
with the nil-pointer special case (no numeric coercion), custom
comparators, type handlers, kind dispatch.  comparePointers is the shared
definition (textually identical in both revisions). -/
def compareValuesF (rec : RecFn) (n : Nat) (path : String) (left right : GoVal)
    (result : DiffList) (config : CompareConfig) (visited : Visited) :
    Option (DiffList × Option GoErr) :=
  if config.IgnoreFields.contains path then some (result, none)
  else if sameReference left right then some (result, none)
  else if left.isVnil && right.isVnil then some (result, none)
  else if left.isVnil then some (result ++ [.base path .vnil right], none)
  else if right.isVnil then some (result ++ [.base path left .vnil], none)
  else
    let leftType := typeOf left
    let rightType := typeOf right
    if !(leftType == rightType) then
      if kindOf left == .kPointer && kindOf right == .kPointer &&
          isNilPtr left && isNilPtr right then
        some (result, none)
      else some (result ++ [.base path left right], none)
    else
      match config.CustomComparators.find? (fun p => p.1 == leftType) with
      | some cc =>
        let (equal, err) := cc.2 left right
        match err with
        | some e => some (result, some e)
        | none =>
          if !equal then some (result ++ [.base path left right], none)
          else some (result, none)
      | none =>
        match config.TypeHandlers.find? (fun h => h.CanHandle leftType) with
        | some handler =>
          handler.Compare (fun p l r res => rec p l r res config visited)
            left right path result
        | none =>
          match kindOf left with
          | .kStruct => compareStructs heap rec n path left right result config visited
          | .kSlice => compareSlices heap rec n path left right result config visited
          | .kMap => compareMaps heap rec n path left right result config visited
          | .kPointer =>
            (comparePointers heap rec path left right result config visited).map
              (fun o => o.1)
          | _ =>
            if tyComparable (typeOf left) then
              match goEqB n left right with
              | none => none
              | some eq =>
                if !eq then some (result ++ [.base path left right], none)
                else some (result, none)
            else
              match deepEqual heap n left right with
              | none => none
              | some eq =>
                if !eq then some (result ++ [.base path left right], none)
                else some (result, none)

/-- compareValues (earlier revision) tied over the fuel. -/
def compareValues : Nat → String → GoVal → GoVal → DiffList → CompareConfig →
    Visited → Option (DiffList × Option GoErr)
  | 0 => fun _ _ _ _ _ _ => none
  | n + 1 => fun path l r res cfg vis =>
    compareValuesF heap (compareValues n) n path l r res cfg vis

/-- CompareWithConfig: nil config falls back to the default; the visited
map starts empty; on error no result is returned. -/
def CompareWithConfig (fuel : Nat) (left right : GoVal)
    (config : Option CompareConfig) :
    Option (Option DiffList × Option GoErr) :=
  let config := config.getD DefaultCompareConfig
  match compareValues heap fuel "" left right [] config [] with
  | none => none
  | some (_, some e) => some (none, some e)
  | some (diffs, none) => some (some diffs, none)

/-- Compare: CompareWithConfig with the default configuration. -/
def Compare (fuel : Nat) (left right : GoVal) :
    Option (Option DiffList × Option GoErr) :=
  CompareWithConfig heap fuel left right (some DefaultCompareConfig)

end OldEngine

end WithID

/-! Claim theorems. -/

set_option maxRecDepth 8000

/-- Helper: a []int slice value at a given address. -/
def intSlice (addr : Nat) (xs : List ℤ) : GoVal :=
  .vslice (.tInt .i) (some addr) (xs.map (fun n => .vint .i n))

/-- Helper: a map[string]int value at a given address. -/
def strIntMap (addr : Nat) (xs : List (String × ℤ)) : GoVal :=
  .vmap .tString (.tInt .i) (some addr) (xs.map (fun p => (.vstring p.1, .vint .i p.2)))

/-- C6: when MaxDepth is configured greater than 0, an invocation of the
dispatcher whose current depth has reached MaxDepth returns immediately
with a nil error and appends no diff — the subtree is silently treated as
equal (any positive fuel exhibits the immediate return). -/
theorem compareValues_maxDepth_truncation
    (heap : Heap) (n : Nat) (path : String) (left right : GoVal)
    (result : DiffList) (config : CompareConfig) (visited : Visited)
    (hpos : config.MaxDepth > 0) (hdepth : config.currentDepth ≥ config.MaxDepth) :
    compareValues heap (n + 1) path left right result config visited =
      some (result, none) := by
  simp [compareValues, compareValuesF, hpos, hdepth]

/-- C6 witness. -/
theorem compareValues_maxDepth_truncation_witness :
    compareValues [] 1 "" (.vint .i 1) (.vint .i 2) []
      { DefaultCompareConfig with MaxDepth := 1, currentDepth := 1 } [] =
      some ([], none) :=
  compareValues_maxDepth_truncation [] 0 "" (.vint .i 1) (.vint .i 2) []
    { DefaultCompareConfig with MaxDepth := 1, currentDepth := 1 } []
    (by decide) (by decide)

/-- C4: for non-nil values of differing runtime types — excluding the
nil-pointers-of-different-types case — with numeric coercion off, the
path not ignored and no depth truncation, the dispatcher appends exactly
one base Diff carrying both values and recurses into neither (the
equation holds at every fuel, so no recursive call is consumed). -/
theorem compareValues_type_mismatch
    (heap : Heap) (n : Nat) (path : String) (left right : GoVal)
    (result : DiffList) (config : CompareConfig) (visited : Visited)
    (hl : left ≠ .vnil) (hr : right ≠ .vnil)
    (hty : typeOf left ≠ typeOf right)
    (hnp : ¬(isNilPtr left = true ∧ isNilPtr right = true))
    (hnum : config.CompareNumericValues = false)
    (hign : pathIgnored config path = false)
    (hdep : ¬(config.MaxDepth > 0 ∧ config.currentDepth ≥ config.MaxDepth)) :
    compareValues heap (n + 1) path left right result config visited =
      some (result ++ [.base path left right], none) := by
  have hvl : left.isVnil = false := by
    cases left <;> simp [GoVal.isVnil] at hl ⊢
  have hvr : right.isVnil = false := by
    cases right <;> simp [GoVal.isVnil] at hr ⊢
  have hsr : sameReference left right = false := by
    simp [sameReference, hvl, hvr]
    intro h1
    exact absurd h1 hty
  have hbty : (typeOf left == typeOf right) = false := by
    simp [hty]
  have hinv : handleInvalidValues path left right result = (false, result) := by
    simp [handleInvalidValues, hvl, hvr]
  have hnpb : (kindOf left == GoKind.kPointer && kindOf right == GoKind.kPointer &&
      isNilPtr left && isNilPtr right) = false := by
    rcases h1 : isNilPtr left with _ | _
    · simp [h1]
    · rcases h2 : isNilPtr right with _ | _
      · simp [h2]
      · exact absurd ⟨h1, h2⟩ hnp
  rcases config with ⟨igf, idf, iso, cnv, cc, th, md, ifs, cd⟩
  rcases ifs with _ | s
  all_goals {
    simp only [pathIgnored] at hign
    simp only at hnum
    subst hnum
    by_cases hMD : md > 0
    · have hcd : ¬ cd ≥ md := fun h => hdep ⟨hMD, h⟩
      simp [compareValues, compareValuesF, pathIgnored, hMD, hcd, hsr, hinv,
        hbty, hnpb]
      simpa using hign
    · simp [compareValues, compareValuesF, pathIgnored, hMD, hsr, hinv, hbty,
        hnpb]
      simpa using hign }

/-- C4 witness. -/
theorem compareValues_type_mismatch_witness :
    compareValues [] 1 "" (.vint .i 1) (.vstring "x") [] DefaultCompareConfig [] =
      some ([.base "" (.vint .i 1) (.vstring "x")], none) :=
  compareValues_type_mismatch [] 0 "" (.vint .i 1) (.vstring "x") []
    DefaultCompareConfig []
    (fun h => GoVal.noConfusion h) (fun h => GoVal.noConfusion h)
    (by decide) (by decide) rfl rfl (by decide)

/-- C3: with order-insensitive comparison, [1,2,2,3] vs [3,2,1,2]
produces zero diffs, and [1,2,2,3] vs [1,2,3,3] produces exactly two:
a Removed-style base diff with left value 2 (right absent) and an
Added-style base diff with right value 3 (left absent), neither carrying
an index (they are base Diff records, not SliceDiffs). -/
theorem unordered_multiset_examples :
    Compare [] 12 (intSlice 1 [1, 2, 2, 3]) (intSlice 2 [3, 2, 1, 2]) [WithIgnoreSliceOrder] =
      some (some [], none) ∧
    Compare [] 12 (intSlice 1 [1, 2, 2, 3]) (intSlice 2 [1, 2, 3, 3]) [WithIgnoreSliceOrder] =
      some (some [.base "" (.vint .i 2) .vnil, .base "" .vnil (.vint .i 3)], none) :=
  ⟨rfl, rfl⟩

/-- C9: comparing {a:1, b:2, c:3} with {a:1, b:4, d:5} under the default
configuration yields exactly three MapDiffs: Updated at key b (2 → 4),
Removed at key c (left 3, right absent), Added at key d (right 5, left
absent). -/
theorem map_example :
    Compare [] 12 (strIntMap 1 [("a", 1), ("b", 2), ("c", 3)])
        (strIntMap 2 [("a", 1), ("b", 4), ("d", 5)]) [] =
      some (some
        [.mapD "[b]" (.vint .i 2) (.vint .i 4) (.vstring "b") .updated,
         .mapD "[c]" (.vint .i 3) .vnil (.vstring "c") .removed,
         .mapD "[d]" .vnil (.vint .i 5) (.vstring "d") .added], none) :=
  rfl

/-- C8: for two non-nil pointers, comparePointers returns immediately
with no diff when the (left address, right address) pair is already in
the visited set; otherwise it recurses into the dereferenced targets with
the pair pushed, and on every outcome of that recursion — error results
included — the returned visited set equals the incoming one (push and pop
are paired on every exit path). -/
theorem comparePointers_visited_frame
    (heap : Heap) (rec : RecFn) (path : String) (lt rt : GoTy) (la ra : Nat)
    (result : DiffList) (config : CompareConfig) (visited : Visited) :
    (visited.contains (la, ra) = true →
      comparePointers heap rec path (.vptr lt (some la)) (.vptr rt (some ra))
        result config visited = some ((result, none), visited)) ∧
    (visited.contains (la, ra) = false →
      comparePointers heap rec path (.vptr lt (some la)) (.vptr rt (some ra))
        result config visited =
        (rec path (heapGet heap la) (heapGet heap ra) result config
          ((la, ra) :: visited)).map (fun o => (o, visited))) ∧
    (∀ out vis2,
      comparePointers heap rec path (.vptr lt (some la)) (.vptr rt (some ra))
          result config visited = some (out, vis2) → vis2 = visited) := by
  have herase : ((la, ra) :: visited).erase (la, ra) = visited :=
    List.erase_cons_head _ _
  refine ⟨fun h => ?_, fun h => ?_, fun out vis2 h2 => ?_⟩
  · simp only [comparePointers, h, if_true]
  · simp only [comparePointers, h, Bool.false_eq_true, if_false]
    cases hrec : rec path (heapGet heap la) (heapGet heap ra) result config
        ((la, ra) :: visited) with
    | none => simp
    | some o => simp [herase]
  · simp only [comparePointers] at h2
    cases h : visited.contains (la, ra) with
    | true =>
      simp only [h, if_true, Option.some.injEq, Prod.mk.injEq] at h2
      exact h2.2.symm
    | false =>
      simp only [h, Bool.false_eq_true, if_false] at h2
      cases hrec : rec path (heapGet heap la) (heapGet heap ra) result config
          ((la, ra) :: visited) with
      | none => rw [hrec] at h2; exact absurd h2 (by simp)
      | some o =>
        rw [hrec] at h2
        simp [herase] at h2
        exact h2.2.symm

/-- C8 witness. -/
theorem comparePointers_visited_frame_witness :
    comparePointers [] (fun _ _ _ res _ _ => some (res, none)) "p"
      (.vptr (.tInt .i) (some 1)) (.vptr (.tInt .i) (some 2))
      [] DefaultCompareConfig [(1, 2)] =
      some (([], none), [(1, 2)]) ∧
    comparePointers [(1, .vint .i 7), (2, .vint .i 7)]
      (fun _ _ _ res _ _ => some (res, none)) "p"
      (.vptr (.tInt .i) (some 1)) (.vptr (.tInt .i) (some 2))
      [] DefaultCompareConfig [] =
      some (([], none), []) := by
  constructor
  · exact (comparePointers_visited_frame [] _ "p" (.tInt .i) (.tInt .i) 1 2 []
      DefaultCompareConfig [(1, 2)]).1 (by rfl)
  · have h := (comparePointers_visited_frame [(1, .vint .i 7), (2, .vint .i 7)]
      (fun _ _ _ res _ _ => some (res, none)) "p" (.tInt .i) (.tInt .i) 1 2 []
      DefaultCompareConfig []).2.1 (by rfl)
    rw [h]
    rfl

/-- Helper: a struct value with a diff:"id"-tagged ID field and a Name
field. -/
def taggedIDStruct (idv : ℤ) (nm : String) : GoVal :=
  .vstruct "StructWithID" true
    [("ID", "id", true, .tInt .i), ("Name", "", true, .tString)]
    [.vint .i idv, .vstring nm]

/-- C2: for two struct values of the same type that both carry a non-zero
identity (getObjectID succeeds on both sides): if the identities are not
deeply equal, compareStructs emits exactly one StructDiff with ChangeType
ID_MISMATCH at the struct's own path (empty FieldName) and compares no
field; if they are deeply equal, the result is exactly the field-by-field
walk. -/
theorem compareStructs_identity_short_circuit
    (heap : Heap) (rec : RecFn) (n : Nat) (path : String)
    (lname : String) (lcmp : Bool) (ftys : List FieldTy) (fvals gvals : List GoVal)
    (result : DiffList) (config : CompareConfig) (visited : Visited)
    (lid rid : GoVal)
    (hl : WithID.getObjectID heap n (.vstruct lname lcmp ftys fvals) config =
      some (lid, true))
    (hr : WithID.getObjectID heap n (.vstruct lname lcmp ftys gvals) config =
      some (rid, true)) :
    (deepEqual heap n lid rid = some false →
      WithID.compareStructs heap rec n path (.vstruct lname lcmp ftys fvals)
        (.vstruct lname lcmp ftys gvals) result config visited =
        some (result ++ [.structD path (.vstruct lname lcmp ftys fvals)
          (.vstruct lname lcmp ftys gvals) "" .idMismatch], none)) ∧
    (deepEqual heap n lid rid = some true →
      WithID.compareStructs heap rec n path (.vstruct lname lcmp ftys fvals)
        (.vstruct lname lcmp ftys gvals) result config visited =
        WithID.structFieldsLoop heap rec n path (.tStruct lname lcmp) config visited
          ftys fvals gvals result) := by
  constructor
  · intro hne
    simp [WithID.compareStructs, hl, hr, hne]
  · intro heq
    simp [WithID.compareStructs, hl, hr, heq]

/-- C2 witness: differing tagged IDs yield the single ID_MISMATCH diff;
equal IDs with a differing Name yield the ordinary field diff. -/
theorem compareStructs_identity_short_circuit_witness :
    WithID.compareStructs [] (fun _ _ _ res _ _ => some (res, none)) 5 ""
      (taggedIDStruct 1 "Alice") (taggedIDStruct 2 "Alice") [] DefaultCompareConfig [] =
      some ([.structD "" (taggedIDStruct 1 "Alice") (taggedIDStruct 2 "Alice")
        "" .idMismatch], none) ∧
    WithID.compareStructs [] (fun _ _ _ res _ _ => some (res, none)) 5 ""
      (taggedIDStruct 1 "Alice") (taggedIDStruct 1 "Bob") [] DefaultCompareConfig [] =
      some ([.structD "Name" (.vstring "Alice") (.vstring "Bob") "Name" .updated], none) := by
  constructor
  · exact (compareStructs_identity_short_circuit [] _ 5 "" "StructWithID" true
      [("ID", "id", true, .tInt .i), ("Name", "", true, .tString)]
      [.vint .i 1, .vstring "Alice"] [.vint .i 2, .vstring "Alice"]
      [] DefaultCompareConfig [] (.vint .i 1) (.vint .i 2) (by rfl) (by rfl)).1 (by rfl)
  · have h := (compareStructs_identity_short_circuit []
      (fun _ _ _ res _ _ => some (res, none)) 5 "" "StructWithID" true
      [("ID", "id", true, .tInt .i), ("Name", "", true, .tString)]
      [.vint .i 1, .vstring "Alice"] [.vint .i 1, .vstring "Bob"]
      [] DefaultCompareConfig [] (.vint .i 1) (.vint .i 1) (by rfl) (by rfl)).2 (by rfl)
    rw [taggedIDStruct, taggedIDStruct, h]
    rfl

/-- IEEE equality characterised: two float64 values compare equal
exactly when they are the same value and that value is not NaN. -/
theorem f64eq_iff (x y : F64) : F64.f64eq x y = true ↔ x = y ∧ x ≠ F64.nan := by
  cases x <;> cases y <;> simp [F64.f64eq]

/-- Rounding to 53 bits is the identity up to 2^53 (the exactly
representable integers). -/
theorem roundNat53_exact (m : Nat) (h : m ≤ 2 ^ 53) : roundNat53 m = m := by
  rcases lt_or_eq_of_le h with h1 | h1
  · rw [roundNat53, if_pos h1]
  · subst h1
    decide

/-- Conversion of an integer of magnitude at most 2^53 to float64 is
exact. -/
theorem int64ToF64_exact (n : ℤ) (h : n.natAbs ≤ 2 ^ 53) :
    int64ToF64 n = F64.fin (n : ℚ) := by
  rw [int64ToF64]
  by_cases hn : n < 0
  · rw [if_pos hn, roundNat53_exact n.natAbs h]
    congr 1
    have h4 : ((n.natAbs : ℚ)) = -(n : ℚ) := by
      rw [Int.cast_natAbs, abs_of_neg hn]
      push_cast
      ring
    rw [h4]
    ring
  · rw [if_neg hn, roundNat53_exact n.natAbs h]
    congr 1
    rw [Int.cast_natAbs, abs_of_nonneg (not_lt.mp hn)]

/-- Branch equation of numericValuesEqual: signed against unsigned. -/
theorem numericValuesEqual_int_uint (w : IntW) (w' : UintW) (a : ℤ) (b : ℕ) :
    numericValuesEqual (.vint w a) (.vuint w' b) =
      if a < 0 then false else (a.toNat == b) := by
  cases w <;> cases w' <;> rfl

/-- Branch equation of numericValuesEqual: unsigned against signed. -/
theorem numericValuesEqual_uint_int (w' : UintW) (w : IntW) (b : ℕ) (a : ℤ) :
    numericValuesEqual (.vuint w' b) (.vint w a) =
      if a < 0 then false else (b == a.toNat) := by
  cases w' <;> cases w <;> rfl

/-- Branch equation of numericValuesEqual: signed integer against
float64. -/
theorem numericValuesEqual_int_float (w : IntW) (n : ℤ) (y : F64) :
    numericValuesEqual (.vint w n) (.vfloat64 y) = F64.f64eq (int64ToF64 n) y := by
  cases w <;> rfl

/-- C7: numericValuesEqual compares same-category values by their widened
native values (signed by int64, unsigned by uint64, floats by IEEE-equal
float64 — so NaN is never equal to itself — complex componentwise by
complex128); a signed and an unsigned integer are equal exactly when the
signed value is non-negative and the widened values agree; an integer and
a float are equal exactly when the exact float64 conversion of the
integer is IEEE-equal to the float (no epsilon), which for integers of
magnitude at most 2^53 means the float is exactly the integer's value. -/
theorem numericValuesEqual_spec :
    (∀ (w w' : IntW) (a b : ℤ),
      numericValuesEqual (.vint w a) (.vint w' b) = (a == b)) ∧
    (∀ (w w' : UintW) (a b : ℕ),
      numericValuesEqual (.vuint w a) (.vuint w' b) = (a == b)) ∧
    (∀ x y : F64,
      numericValuesEqual (.vfloat32 x) (.vfloat64 y) = F64.f64eq x y ∧
      numericValuesEqual (.vfloat64 x) (.vfloat32 y) = F64.f64eq x y) ∧
    (∀ (w : IntW) (w' : UintW) (a : ℤ) (b : ℕ),
      (numericValuesEqual (.vint w a) (.vuint w' b) = true ↔ 0 ≤ a ∧ a = (b : ℤ)) ∧
      (numericValuesEqual (.vuint w' b) (.vint w a) = true ↔ 0 ≤ a ∧ a = (b : ℤ))) ∧
    (∀ (w : IntW) (n : ℤ) (y : F64),
      numericValuesEqual (.vint w n) (.vfloat64 y) = F64.f64eq (int64ToF64 n) y ∧
      numericValuesEqual (.vfloat64 y) (.vint w n) = F64.f64eq y (int64ToF64 n) ∧
      (n.natAbs ≤ 2 ^ 53 →
        (numericValuesEqual (.vint w n) (.vfloat64 y) = true ↔ y = F64.fin (n : ℚ)))) ∧
    (∀ (w : UintW) (n : ℕ) (y : F64),
      numericValuesEqual (.vuint w n) (.vfloat64 y) = F64.f64eq (uint64ToF64 n) y) ∧
    (numericValuesEqual (.vfloat32 F64.nan) (.vfloat64 F64.nan) = false) ∧
    (∀ a b c d : F64,
      numericValuesEqual (.vcomplex64 a b) (.vcomplex128 c d) =
        (F64.f64eq a c && F64.f64eq b d)) := by
  refine ⟨?_, ?_, ?_, ?_, ?_, ?_, ?_, ?_⟩
  · intro w w' a b
    cases w <;> cases w' <;> rfl
  · intro w w' a b
    cases w <;> cases w' <;> rfl
  · intro x y
    exact ⟨rfl, rfl⟩
  · intro w w' a b
    constructor
    · rw [numericValuesEqual_int_uint]
      by_cases h : a < 0
      all_goals simp [h]
      all_goals omega
    · rw [numericValuesEqual_uint_int]
      by_cases h : a < 0
      all_goals simp [h]
      all_goals omega
  · intro w n y
    refine ⟨numericValuesEqual_int_float w n y, by cases w <;> rfl, fun h => ?_⟩
    rw [numericValuesEqual_int_float, int64ToF64_exact n h, f64eq_iff]
    constructor
    · intro h2
      exact h2.1.symm
    · intro h2
      exact ⟨h2.symm, by intro hc; exact F64.noConfusion hc⟩
  · intro w n y
    cases w <;> rfl
  · rfl
  · intro a b c d
    rfl

/-- C7 witness: the int 7 equals the float64 7.0 (exactly representable),
via the int-float clause of the characterisation. -/
theorem numericValuesEqual_spec_witness :
    numericValuesEqual (.vint .i 7) (.vfloat64 (.fin 7)) = true := by
  have h := (numericValuesEqual_spec.2.2.2.2.1 .i 7 (.fin 7)).2.2 (by norm_num)
  exact h.mpr (by norm_num)

/-- A handler-recursion entry that never reports an error. -/
def HRecNoErr (hrec : HRecFn) : Prop :=
  ∀ p l r res d e, hrec p l r res = some (d, e) → e = none

/-- A type handler that reports no error when invoked the way the engine
invokes it (types equal and claimed by CanHandle, both values valid),
provided the recursion entry it is given reports none. -/
def HandlerClean (h : TypeHandler) : Prop :=
  ∀ (hrec : HRecFn), HRecNoErr hrec →
    ∀ l r path res d e, typeOf l = typeOf r → h.CanHandle (typeOf l) = true →
      h.Compare hrec l r path res = some (d, e) → e = none

/-- A configuration whose custom comparators never return an error and
whose type handlers are clean. -/
def CfgClean (config : CompareConfig) : Prop :=
  (∀ p ∈ config.CustomComparators, ∀ l r, (p.2 l r).2 = none) ∧
  (∀ h ∈ config.TypeHandlers, HandlerClean h)

theorem cfgClean_ignoreOrder {config : CompareConfig} (h : CfgClean config) :
    CfgClean (ignoreOrderConfig config) := h

theorem compareSlicesUnordered_no_error (heap : Heap) (n : Nat) (path : String)
    (l r : GoVal) (res : DiffList) (d : DiffList) (e : Option GoErr)
    (hres : compareSlicesUnordered heap n path l r res = some (d, e)) : e = none := by
  simp only [compareSlicesUnordered] at hres
  split at hres
  · exact absurd hres (by simp)
  · simp at hres
    exact hres.2.symm

theorem sliceCountDiffs_no_error (n : Nat) (path : String) (les res2 : List GoVal)
    (res d : DiffList) (e : Option GoErr)
    (hres : sliceCountDiffs n path les res2 res = some (d, e)) : e = none := by
  simp only [sliceCountDiffs] at hres
  split at hres
  · split at hres
    · exact absurd hres (by simp)
    · split at hres
      · exact absurd hres (by simp)
      · simp at hres
        exact hres.2.symm
  · exact absurd hres (by simp)

theorem compareSlicesAdvanced_no_error (heap : Heap) (n : Nat) (path : String)
    (l r : GoVal) (res d : DiffList) (e : Option GoErr)
    (hres : compareSlicesAdvanced heap n path l r res = some (d, e)) : e = none := by
  simp only [compareSlicesAdvanced, compareSlicesByValue, compareSlicesSimple,
    compareSlicesWithDeepEqual] at hres
  split at hres
  · simp at hres; exact hres.2.symm
  · split at hres
    · simp at hres; exact hres.2.symm
    · split at hres
      · simp at hres; exact hres.2.symm
      · split at hres
        · simp at hres; exact hres.2.symm
        · split at hres
          · exact compareSlicesUnordered_no_error heap n path l r res d e hres
          · split at hres
            · exact compareSlicesUnordered_no_error heap n path l r res d e hres
            · exact sliceCountDiffs_no_error n path _ _ res d e hres

/-- A full-engine recursion entry that reports no error under a clean
configuration. -/
def RecNoErr (rec : RecFn) : Prop :=
  ∀ path l r res cfg vis d e, CfgClean cfg → rec path l r res cfg vis = some (d, e) →
    e = none

theorem sliceOrderedLoop_no_error (heap : Heap) (rec : RecFn) (n : Nat) (path : String)
    (les res2 : List GoVal) (config : CompareConfig) (visited : Visited)
    (Hrec : RecNoErr rec) (hcfg : CfgClean config) :
    ∀ (rem i : Nat) (res d : DiffList) (e : Option GoErr),
      sliceOrderedLoop heap rec n path les res2 config visited rem i res = some (d, e) →
      e = none := by
  intro rem
  induction rem with
  | zero =>
    intro i res d e hres
    simp only [sliceOrderedLoop] at hres
    simp at hres
    exact hres.2.symm
  | succ m ih =>
    intro i res d e hres
    simp only [sliceOrderedLoop] at hres
    repeat' split at hres
    all_goals try exact ih _ _ _ _ hres
    all_goals try exact absurd hres (Option.noConfusion)
    all_goals
      rename_i r2 e0 heq2
      exact absurd (Hrec _ _ _ _ _ _ _ _ hcfg heq2) (by simp)

theorem compareSlices_no_error (heap : Heap) (rec : RecFn) (n : Nat) (path : String)
    (l r : GoVal) (res : DiffList) (config : CompareConfig) (visited : Visited)
    (d : DiffList) (e : Option GoErr)
    (Hrec : RecNoErr rec) (hcfg : CfgClean config)
    (hres : compareSlices heap rec n path l r res config visited = some (d, e)) :
    e = none := by
  simp only [compareSlices] at hres
  split at hres
  · exact compareSlicesAdvanced_no_error heap n path l r res d e hres
  · exact sliceOrderedLoop_no_error heap rec n path _ _ config visited Hrec hcfg
      _ _ _ _ _ hres

theorem structFieldsLoop_no_error (heap : Heap) (rec : RecFn) (n : Nat) (path : String)
    (typ : GoTy) (config : CompareConfig) (visited : Visited)
    (Hrec : RecNoErr rec) (hcfg : CfgClean config) :
    ∀ (ftys : List FieldTy) (lvs rvs : List GoVal) (res d : DiffList) (e : Option GoErr),
      structFieldsLoop heap rec n path typ config visited ftys lvs rvs res = some (d, e) →
      e = none := by
  intro ftys
  induction ftys with
  | nil =>
    intro lvs rvs res d e hres
    simp only [structFieldsLoop] at hres
    simp at hres
    exact hres.2.symm
  | cons fty ftys ih =>
    intro lvs rvs res d e hres
    cases lvs with
    | nil =>
      simp only [structFieldsLoop] at hres
      simp at hres
      exact hres.2.symm
    | cons lv lvs =>
      cases rvs with
      | nil =>
        simp only [structFieldsLoop] at hres
        simp at hres
        exact hres.2.symm
      | cons rv rvs =>
        simp only [structFieldsLoop] at hres
        repeat' split at hres
        all_goals try exact ih _ _ _ _ _ hres
        all_goals try exact absurd hres (Option.noConfusion)
        all_goals
          rename_i r2 e0 heq2
          first
            | exact absurd (Hrec _ _ _ _ _ _ _ _ hcfg heq2) (by simp)
            | exact absurd
                (compareSlices_no_error heap rec n _ lv rv res _ visited r2 (some e0)
                  Hrec (by
                    split
                    · exact cfgClean_ignoreOrder hcfg
                    · exact hcfg) heq2)
                (by simp)

theorem mapLeftLoop_no_error (heap : Heap) (rec : RecFn) (n : Nat) (path : String)
    (rentries : List (GoVal × GoVal)) (config : CompareConfig) (visited : Visited)
    (Hrec : RecNoErr rec) (hcfg : CfgClean config) :
    ∀ (lentries : List (GoVal × GoVal)) (res d : DiffList) (e : Option GoErr),
      mapLeftLoop heap rec n path rentries config visited lentries res = some (d, e) →
      e = none := by
  intro lentries
  induction lentries with
  | nil =>
    intro res d e hres
    simp only [mapLeftLoop] at hres
    simp at hres
    exact hres.2.symm
  | cons entry rest ih =>
    intro res d e hres
    rcases entry with ⟨key, lval⟩
    simp only [mapLeftLoop] at hres
    repeat' split at hres
    all_goals try exact ih _ _ _ hres
    all_goals try exact absurd hres (Option.noConfusion)
    all_goals
      rename_i r2 e0 heq2
      exact absurd (Hrec _ _ _ _ _ _ _ _ hcfg heq2) (by simp)

theorem compareMaps_no_error (heap : Heap) (rec : RecFn) (n : Nat) (path : String)
    (l r : GoVal) (res : DiffList) (config : CompareConfig) (visited : Visited)
    (d : DiffList) (e : Option GoErr)
    (Hrec : RecNoErr rec) (hcfg : CfgClean config)
    (hres : compareMaps heap rec n path l r res config visited = some (d, e)) :
    e = none := by
  simp only [compareMaps] at hres
  repeat' split at hres
  all_goals try exact absurd hres (Option.noConfusion)
  all_goals try (simp at hres; exact hres.2.symm)
  all_goals
    rename_i r2 e0 heq2
    exact absurd (mapLeftLoop_no_error heap rec n path _ config visited Hrec hcfg
      _ res r2 (some e0) heq2) (by simp)

theorem comparePointers_no_error (heap : Heap) (rec : RecFn) (path : String)
    (l r : GoVal) (res : DiffList) (config : CompareConfig) (visited : Visited)
    (out : (DiffList × Option GoErr) × Visited)
    (Hrec : RecNoErr rec) (hcfg : CfgClean config)
    (hres : comparePointers heap rec path l r res config visited = some out) :
    out.1.2 = none := by
  simp only [comparePointers] at hres
  repeat' split at hres
  all_goals try exact absurd hres (Option.noConfusion)
  all_goals try (cases hres; rfl)
  all_goals try (
    rw [Option.map_eq_some'] at hres
    obtain ⟨o, hmap, hout⟩ := hres
    have h9 := Hrec _ _ _ _ _ _ _ _ hcfg hmap
    subst hout
    simpa using h9)
  all_goals
    rename_i r2 err heq2
    cases hres
    simpa using Hrec _ _ _ _ _ _ _ _ hcfg heq2

theorem compareStructs_no_error (heap : Heap) (rec : RecFn) (n : Nat) (path : String)
    (l r : GoVal) (res : DiffList) (config : CompareConfig) (visited : Visited)
    (d : DiffList) (e : Option GoErr)
    (Hrec : RecNoErr rec) (hcfg : CfgClean config)
    (hres : compareStructs heap rec n path l r res config visited = some (d, e)) :
    e = none := by
  simp only [compareStructs] at hres
  split at hres
  · exact structFieldsLoop_no_error heap rec n path _ config visited Hrec hcfg
      _ _ _ res d e hres
  · simp at hres
    exact hres.2.symm

theorem compareValuesF_no_error (heap : Heap) (rec : RecFn) (n : Nat)
    (Hrec : RecNoErr rec) :
    ∀ (path : String) (l r : GoVal) (res : DiffList) (config : CompareConfig)
      (visited : Visited) (d : DiffList) (e : Option GoErr), CfgClean config →
      compareValuesF heap rec n path l r res config visited = some (d, e) → e = none := by
  intro path l r res config visited d e hcfg hres
  have hcfg1 : CfgClean { config with currentDepth := config.currentDepth + 1 } := hcfg
  simp only [compareValuesF] at hres
  repeat' split at hres
  all_goals try exact absurd hres (Option.noConfusion)
  all_goals try (simp at hres; exact hres.2.symm)
  all_goals try exact compareStructs_no_error heap rec n path l r res _ visited d e Hrec hcfg1 hres
  all_goals try exact compareStructs_no_error heap rec n path l r res _ visited d e Hrec hcfg hres
  all_goals try exact compareSlices_no_error heap rec n path l r res _ visited d e Hrec hcfg1 hres
  all_goals try exact compareSlices_no_error heap rec n path l r res _ visited d e Hrec hcfg hres
  all_goals try exact compareMaps_no_error heap rec n path l r res _ visited d e Hrec hcfg1 hres
  all_goals try exact compareMaps_no_error heap rec n path l r res _ visited d e Hrec hcfg hres
  all_goals try (
    exfalso
    rename_i cc heqfind err0 e0 heqpair
    have hmem := List.mem_of_find?_eq_some heqfind
    have h9 := hcfg.1 _ hmem l r
    rw [heqpair] at h9
    exact Option.noConfusion h9)
  all_goals try (
    rename_i handler heqfind
    have hmem := List.mem_of_find?_eq_some heqfind
    have hcan := List.find?_some heqfind
    have htyeq : typeOf l = typeOf r := by
      simpa using ‹¬(!typeOf l == typeOf r) = true›
    refine hcfg.2 _ hmem _ ?_ l r path res d e htyeq (by simpa using hcan) hres
    intro p l2 r2 res2 d2 e2 hx
    first
      | exact Hrec _ _ _ _ _ _ _ _ hcfg1 hx
      | exact Hrec _ _ _ _ _ _ _ _ hcfg hx)
  all_goals (
    rw [Option.map_eq_some'] at hres
    obtain ⟨o, hmap, hout⟩ := hres
    have h9 : o.1.2 = none := by
      first
        | exact comparePointers_no_error heap rec path l r res _ visited o Hrec hcfg1 hmap
        | exact comparePointers_no_error heap rec path l r res _ visited o Hrec hcfg hmap
    rw [hout] at h9
    exact h9)

theorem compareValues_no_error (heap : Heap) :
    ∀ (fuel : Nat), RecNoErr (compareValues heap fuel)
  | 0 => by
    intro path l r res cfg vis d e hcfg hres
    exact absurd hres Option.noConfusion
  | fuel + 1 => by
    intro path l r res cfg vis d e hcfg hres
    exact compareValuesF_no_error heap (compareValues heap fuel) fuel
      (compareValues_no_error heap fuel) path l r res cfg vis d e hcfg hres

theorem cfgClean_of_eq {c c2 : CompareConfig}
    (h1 : c2.CustomComparators = c.CustomComparators)
    (h2 : c2.TypeHandlers = c.TypeHandlers) (h : CfgClean c) : CfgClean c2 := by
  constructor
  · rw [h1]; exact h.1
  · rw [h2]; exact h.2

theorem Compare_clean_no_error (heap : Heap) (fuel : Nat) (l r : GoVal) (opts : List CompareOption)
    (od : Option DiffList) (e : Option GoErr)
    (hcfg : CfgClean (opts.foldl (fun c opt => opt c) DefaultCompareConfig))
    (hres : Compare heap fuel l r opts = some (od, e)) : e = none := by
  simp only [Compare] at hres
  repeat' split at hres
  all_goals try exact absurd hres Option.noConfusion
  all_goals first
    | (simp at hres
       exact hres.2.symm)
    | (rename_i d0 e0 heq
       exfalso
       have h9 := compareValues_no_error heap fuel _ _ _ _ _ _ _ _
         (cfgClean_of_eq (by split <;> rfl) (by split <;> rfl) hcfg) heq
       simp at h9)

theorem Compare_result_shape (heap : Heap) (fuel : Nat) (l r : GoVal) (opts : List CompareOption)
    (od : Option DiffList) (e : Option GoErr)
    (hres : Compare heap fuel l r opts = some (od, e)) :
    (∀ ge, e = some ge → od = none) ∧ (e = none → ∃ ds, od = some ds) := by
  simp only [Compare] at hres
  repeat' split at hres
  all_goals try exact absurd hres Option.noConfusion
  all_goals (rw [Option.some.injEq, Prod.mk.injEq] at hres
             obtain ⟨h1, h2⟩ := hres
             subst h1
             subst h2)
  · exact ⟨fun _ _ => rfl, fun h => absurd h (by simp)⟩
  · exact ⟨fun ge h => absurd h (by simp), fun _ => ⟨_, rfl⟩⟩

theorem timeHandler_clean : HandlerClean TimeHandler := by
  intro hrec hno l r path res d e hty hcan hres
  cases l <;> simp [TimeHandler, typeOf] at hcan
  cases r <;> simp [typeOf] at hty
  simp only [TimeHandler] at hres
  split at hres
  all_goals (rw [Option.some.injEq, Prod.mk.injEq] at hres; exact hres.2.symm)

theorem interfaceHandler_clean : HandlerClean InterfaceHandler := by
  intro hrec hno l r path res d e hty hcan hres
  simp only [InterfaceHandler] at hres
  repeat' split at hres
  all_goals try (rw [Option.some.injEq, Prod.mk.injEq] at hres; exact hres.2.symm)
  exact hno _ _ _ _ _ _ hres

theorem functionHandler_clean : HandlerClean FunctionHandler := by
  intro hrec hno l r path res d e hty hcan hres
  simp only [FunctionHandler] at hres
  repeat' split at hres
  all_goals (rw [Option.some.injEq, Prod.mk.injEq] at hres; exact hres.2.symm)

theorem channelHandler_clean : HandlerClean ChannelHandler := by
  intro hrec hno l r path res d e hty hcan hres
  simp only [ChannelHandler] at hres
  repeat' split at hres
  all_goals (rw [Option.some.injEq, Prod.mk.injEq] at hres; exact hres.2.symm)

theorem defaultCfgClean : CfgClean DefaultCompareConfig := by
  constructor
  · intro p hp
    simp [DefaultCompareConfig] at hp
  · intro h hh
    simp [DefaultCompareConfig, DefaultTypeHandlers] at hh
    rcases hh with h1 | h1 | h1 | h1 <;> rw [h1]
    · exact timeHandler_clean
    · exact interfaceHandler_clean
    · exact functionHandler_clean
    · exact channelHandler_clean

theorem wid_cfgClean_ignoreOrder {config : CompareConfig} (h : CfgClean config) :
    CfgClean (WithID.ignoreOrderConfig config) := h

theorem wid_compareSlicesAdvanced_no_error (heap : Heap) (n : Nat) (path : String)
    (l r : GoVal) (res : DiffList) (config : CompareConfig) (d : DiffList)
    (e : Option GoErr)
    (hres : WithID.compareSlicesAdvanced heap n path l r res config = some (d, e)) :
    e = none := by
  simp only [WithID.compareSlicesAdvanced, WithID.compareSlicesByValue,
    WithID.compareSlicesSimple, WithID.compareSlicesWithDeepEqual] at hres
  repeat' split at hres
  all_goals try exact absurd hres (Option.noConfusion)
  all_goals try (simp at hres; exact hres.2.symm)
  all_goals exact sliceCountDiffs_no_error n path _ _ res d e hres

theorem wid_compareSlices_no_error (heap : Heap) (rec : RecFn) (n : Nat) (path : String)
    (l r : GoVal) (res : DiffList) (config : CompareConfig) (visited : Visited)
    (d : DiffList) (e : Option GoErr)
    (Hrec : RecNoErr rec) (hcfg : CfgClean config)
    (hres : WithID.compareSlices heap rec n path l r res config visited = some (d, e)) :
    e = none := by
  simp only [WithID.compareSlices] at hres
  split at hres
  · exact wid_compareSlicesAdvanced_no_error heap n path l r res config d e hres
  · exact sliceOrderedLoop_no_error heap rec n path _ _ config visited Hrec hcfg
      _ _ _ _ _ hres

theorem wid_structFieldsLoop_no_error (heap : Heap) (rec : RecFn) (n : Nat) (path : String)
    (typ : GoTy) (config : CompareConfig) (visited : Visited)
    (Hrec : RecNoErr rec) (hcfg : CfgClean config) :
    ∀ (ftys : List FieldTy) (lvs rvs : List GoVal) (res d : DiffList) (e : Option GoErr),
      WithID.structFieldsLoop heap rec n path typ config visited ftys lvs rvs res =
        some (d, e) → e = none := by
  intro ftys
  induction ftys with
  | nil =>
    intro lvs rvs res d e hres
    simp only [WithID.structFieldsLoop] at hres
    simp at hres
    exact hres.2.symm
  | cons fty ftys ih =>
    intro lvs rvs res d e hres
    cases lvs with
    | nil =>
      simp only [WithID.structFieldsLoop] at hres
      simp at hres
      exact hres.2.symm
    | cons lv lvs =>
      cases rvs with
      | nil =>
        simp only [WithID.structFieldsLoop] at hres
        simp at hres
        exact hres.2.symm
      | cons rv rvs =>
        simp only [WithID.structFieldsLoop] at hres
        repeat' split at hres
        all_goals try exact ih _ _ _ _ _ hres
        all_goals try exact absurd hres (Option.noConfusion)
        all_goals
          rename_i r2 e0 heq2
          first
            | exact absurd (Hrec _ _ _ _ _ _ _ _ hcfg heq2) (by simp)
            | exact absurd
                (wid_compareSlices_no_error heap rec n _ lv rv res _ visited r2 (some e0)
                  Hrec (by
                    split
                    · exact wid_cfgClean_ignoreOrder hcfg
                    · exact hcfg) heq2)
                (by simp)

theorem wid_compareStructs_no_error (heap : Heap) (rec : RecFn) (n : Nat) (path : String)
    (l r : GoVal) (res : DiffList) (config : CompareConfig) (visited : Visited)
    (d : DiffList) (e : Option GoErr)
    (Hrec : RecNoErr rec) (hcfg : CfgClean config)
    (hres : WithID.compareStructs heap rec n path l r res config visited = some (d, e)) :
    e = none := by
  simp only [WithID.compareStructs] at hres
  repeat' split at hres
  all_goals try exact absurd hres (Option.noConfusion)
  all_goals try (simp at hres; exact hres.2.symm)
  all_goals exact wid_structFieldsLoop_no_error heap rec n path _ config visited Hrec hcfg _ _ _ res d e hres

theorem wid_mapLeftLoop_no_error (heap : Heap) (rec : RecFn) (n : Nat) (path : String)
    (rentries : List (GoVal × GoVal)) (config : CompareConfig) (visited : Visited)
    (Hrec : RecNoErr rec) (hcfg : CfgClean config) :
    ∀ (lentries : List (GoVal × GoVal)) (res d : DiffList) (e : Option GoErr),
      WithID.mapLeftLoop heap rec n path rentries config visited lentries res =
        some (d, e) → e = none := by
  intro lentries
  induction lentries with
  | nil =>
    intro res d e hres
    simp only [WithID.mapLeftLoop] at hres
    simp at hres
    exact hres.2.symm
  | cons entry rest ih =>
    intro res d e hres
    rcases entry with ⟨key, lval⟩
    simp only [WithID.mapLeftLoop] at hres
    repeat' split at hres
    all_goals try exact ih _ _ _ hres
    all_goals try exact absurd hres (Option.noConfusion)
    all_goals
      rename_i r2 e0 heq2
      exact absurd (Hrec _ _ _ _ _ _ _ _ hcfg heq2) (by simp)

theorem wid_compareMaps_no_error (heap : Heap) (rec : RecFn) (n : Nat) (path : String)
    (l r : GoVal) (res : DiffList) (config : CompareConfig) (visited : Visited)
    (d : DiffList) (e : Option GoErr)
    (Hrec : RecNoErr rec) (hcfg : CfgClean config)
    (hres : WithID.compareMaps heap rec n path l r res config visited = some (d, e)) :
    e = none := by
  simp only [WithID.compareMaps] at hres
  repeat' split at hres
  all_goals try exact absurd hres (Option.noConfusion)
  all_goals try (simp at hres; exact hres.2.symm)
  all_goals
    rename_i r2 e0 heq2
    exact absurd (wid_mapLeftLoop_no_error heap rec n path _ config visited Hrec hcfg
      _ res r2 (some e0) heq2) (by simp)

theorem wid_compareValuesF_no_error (heap : Heap) (rec : RecFn) (n : Nat)
    (Hrec : RecNoErr rec) :
    ∀ (path : String) (l r : GoVal) (res : DiffList) (config : CompareConfig)
      (visited : Visited) (d : DiffList) (e : Option GoErr), CfgClean config →
      WithID.compareValuesF heap rec n path l r res config visited = some (d, e) →
      e = none := by
  intro path l r res config visited d e hcfg hres
  simp only [WithID.compareValuesF] at hres
  repeat' split at hres
  all_goals try exact absurd hres (Option.noConfusion)
  all_goals try (simp at hres; exact hres.2.symm)
  all_goals first
    | exact wid_compareStructs_no_error heap rec n path l r res _ visited d e Hrec hcfg hres
    | exact wid_compareSlices_no_error heap rec n path l r res _ visited d e Hrec hcfg hres
    | exact wid_compareMaps_no_error heap rec n path l r res _ visited d e Hrec hcfg hres
    | (rw [Option.map_eq_some'] at hres
       obtain ⟨o, hmap, hout⟩ := hres
       have h9 : o.1.2 = none :=
         comparePointers_no_error heap rec path l r res _ visited o Hrec hcfg hmap
       rw [hout] at h9
       exact h9)
    | (exfalso
       rename_i cc heqfind err0 e0 heqpair
       have hmem := List.mem_of_find?_eq_some heqfind
       have h9 := hcfg.1 _ hmem l r
       rw [heqpair] at h9
       exact Option.noConfusion h9)
    | (rename_i handler heqfind
       have hmem := List.mem_of_find?_eq_some heqfind
       have hcan := List.find?_some heqfind
       have htyeq : typeOf l = typeOf r := by
         simpa using ‹¬(!typeOf l == typeOf r) = true›
       refine hcfg.2 _ hmem _ ?_ l r path res d e htyeq (by simpa using hcan) hres
       intro p l2 r2 res2 d2 e2 hx
       exact Hrec _ _ _ _ _ _ _ _ hcfg hx)

theorem wid_compareValues_no_error (heap : Heap) :
    ∀ (fuel : Nat), RecNoErr (WithID.compareValues heap fuel)
  | 0 => by
    intro path l r res cfg vis d e hcfg hres
    exact absurd hres Option.noConfusion
  | fuel + 1 => by
    intro path l r res cfg vis d e hcfg hres
    exact wid_compareValuesF_no_error heap (WithID.compareValues heap fuel) fuel
      (wid_compareValues_no_error heap fuel) path l r res cfg vis d e hcfg hres

theorem wid_CompareWithConfig_clean_no_error (heap : Heap) (fuel : Nat) (l r : GoVal)
    (cfg : Option CompareConfig) (od : Option DiffList) (e : Option GoErr)
    (hcfg : CfgClean (cfg.getD DefaultCompareConfig))
    (hres : WithID.CompareWithConfig heap fuel l r cfg = some (od, e)) : e = none := by
  simp only [WithID.CompareWithConfig] at hres
  repeat' split at hres
  all_goals try exact absurd hres Option.noConfusion
  all_goals first
    | (rw [Option.some.injEq, Prod.mk.injEq] at hres
       exact hres.2.symm)
    | (rename_i d0 e0 heq
       exfalso
       have h9 := wid_compareValues_no_error heap fuel _ _ _ _ _ _ _ _ hcfg heq
       simp at h9)

theorem wid_CompareWithConfig_result_shape (heap : Heap) (fuel : Nat) (l r : GoVal)
    (cfg : Option CompareConfig) (od : Option DiffList) (e : Option GoErr)
    (hres : WithID.CompareWithConfig heap fuel l r cfg = some (od, e)) :
    (∀ ge, e = some ge → od = none) ∧ (e = none → ∃ ds, od = some ds) := by
  simp only [WithID.CompareWithConfig] at hres
  repeat' split at hres
  all_goals try exact absurd hres Option.noConfusion
  all_goals (rw [Option.some.injEq, Prod.mk.injEq] at hres
             obtain ⟨h1, h2⟩ := hres
             subst h1
             subst h2)
  · exact ⟨fun _ _ => rfl, fun h => absurd h (by simp)⟩
  · exact ⟨fun ge h => absurd h (by simp), fun _ => ⟨_, rfl⟩⟩

/-- C5: both entry points (`Compare` of the current revision and
`CompareWithConfig` of the earlier one) return a non-nil error only when a
user-supplied custom comparator or type handler raised one during the
traversal: under a configuration whose comparators and handlers never
error (`CfgClean`) the returned error is nil, and structurally a non-nil
error always comes with a nil diff result while a nil error always comes
with a non-nil diff list. -/
theorem compare_error_only_from_handlers
    (heap : Heap) (fuel : Nat) (l r : GoVal) (opts : List CompareOption)
    (cfg : Option CompareConfig) (od : Option DiffList) (e : Option GoErr)
    (od2 : Option DiffList) (e2 : Option GoErr)
    (hres : Compare heap fuel l r opts = some (od, e))
    (hres2 : WithID.CompareWithConfig heap fuel l r cfg = some (od2, e2)) :
    (((∀ ge, e = some ge → od = none) ∧ (e = none → ∃ ds, od = some ds)) ∧
      (CfgClean (opts.foldl (fun c opt => opt c) DefaultCompareConfig) → e = none)) ∧
    (((∀ ge, e2 = some ge → od2 = none) ∧ (e2 = none → ∃ ds, od2 = some ds)) ∧
      (CfgClean (cfg.getD DefaultCompareConfig) → e2 = none)) :=
  ⟨⟨Compare_result_shape heap fuel l r opts od e hres,
    fun hcfg => Compare_clean_no_error heap fuel l r opts od e hcfg hres⟩,
   ⟨wid_CompareWithConfig_result_shape heap fuel l r cfg od2 e2 hres2,
    fun hcfg => wid_CompareWithConfig_clean_no_error heap fuel l r cfg od2 e2 hcfg hres2⟩⟩

/-- C5 witness: the default configuration is clean, and a successful
default-configuration run surfaces its diff list. -/
theorem compare_error_only_from_handlers_witness :
    Compare [] 3 (.vint .i 1) (.vint .i 1) [] = some (some [], none) ∧
    WithID.CompareWithConfig [] 3 (.vint .i 1) (.vint .i 1) none =
      some (some [], none) ∧
    ((none : Option GoErr) = none → ∃ ds, (some [] : Option DiffList) = some ds) :=
  ⟨rfl, rfl,
    (compare_error_only_from_handlers [] 3 (.vint .i 1) (.vint .i 1) [] none
      (some []) none (some []) none (by rfl) (by rfl)).1.1.2⟩

/-- Self-equality under Go `==` together with totality of `==` against any
opponent: the class of values whose interface equality is reflexive and,
scanning from the left, never exhausts the given fuel.  Floats demand
`x == x` (excluding NaN); slice, map and func values are uncomparable. -/
def goEqRefl : Nat → GoVal → Bool
  | 0, _ => false
  | _ + 1, .vfloat32 a => F64.f64eq a a
  | _ + 1, .vfloat64 a => F64.f64eq a a
  | _ + 1, .vcomplex64 a b => F64.f64eq a a && F64.f64eq b b
  | _ + 1, .vcomplex128 a b => F64.f64eq a a && F64.f64eq b b
  | n + 1, .vstruct _ _ _ fvals => fvals.all (goEqRefl n)
  | _ + 1, .vslice _ _ _ => false
  | _ + 1, .vmap _ _ _ _ => false
  | _ + 1, .vfunc _ _ => false
  | _ + 1, _ => true

/-- The class of values on which comparison with self is diff-free: no NaN
float or complex component, function values nil, struct fields safe, slice
elements safe — and a slice whose comparable element type can reach the
multiset counting strategy (more than 5 elements) needs `==`-reflexive
elements.  Map contents and pointer targets are unconstrained: the engine
short-circuits both on the shared reference/address, so cyclic and
self-referential structures are covered. -/
def reflexSafe : Nat → GoVal → Bool
  | 0, _ => false
  | _ + 1, .vfloat32 a => F64.f64eq a a
  | _ + 1, .vfloat64 a => F64.f64eq a a
  | _ + 1, .vcomplex64 a b => F64.f64eq a a && F64.f64eq b b
  | _ + 1, .vcomplex128 a b => F64.f64eq a a && F64.f64eq b b
  | _ + 1, .vfunc _ a => a == none
  | n + 1, .vstruct _ _ _ fvals => fvals.all (reflexSafe n)
  | n + 1, .vslice ety _ es =>
    es.all (reflexSafe n) &&
      (!(tyComparable ety) || decide (es.length ≤ 5) || es.all (goEqRefl n))
  | _ + 1, _ => true

theorem optAll_zip_self {f : GoVal × GoVal → Option Bool} :
    ∀ {l : List GoVal}, (∀ a ∈ l, f (a, a) = some true) →
      optAll f (l.zip l) = some true := by
  intro l
  induction l with
  | nil => intro _; rfl
  | cons a as ih =>
    intro h
    simp only [List.zip_cons_cons, optAll, h a (by simp)]
    exact ih (fun b hb => h b (by simp [hb]))

theorem optAll_zip_total {f : GoVal × GoVal → Option Bool} :
    ∀ {l r : List GoVal}, (∀ a ∈ l, ∀ b, ∃ c, f (a, b) = some c) →
      ∃ c, optAll f (l.zip r) = some c := by
  intro l
  induction l with
  | nil => intro r _; exact ⟨true, rfl⟩
  | cons a as ih =>
    intro r h
    cases r with
    | nil => exact ⟨true, rfl⟩
    | cons b bs =>
      obtain ⟨c, hc⟩ := h a (by simp) b
      cases c with
      | false => exact ⟨false, by simp only [List.zip_cons_cons, optAll, hc]⟩
      | true =>
        obtain ⟨c2, hc2⟩ := ih (fun x hx => h x (by simp [hx]))
        exact ⟨c2, by simp only [List.zip_cons_cons, optAll, hc]; exact hc2⟩

theorem goEqRefl_self : ∀ (k m : Nat) (v : GoVal), goEqRefl m v = true → m ≤ k →
    goEqB k v v = some true := by
  intro k
  induction k with
  | zero =>
    intro m v h hm
    have : m = 0 := by omega
    subst this
    exact absurd h (by cases v <;> simp [goEqRefl])
  | succ k ih =>
    intro m v h hm
    cases m with
    | zero => exact absurd h (by cases v <;> simp [goEqRefl])
    | succ m =>
      cases v <;> simp_all [goEqRefl, goEqB, typeOf]
      · rename_i fvals
        exact optAll_zip_self (fun a ha => ih m a (h a ha) (by omega))

theorem optAll_zip_ne_none {f : GoVal × GoVal → Option Bool} :
    ∀ {l r : List GoVal}, (∀ a ∈ l, ∀ b, f (a, b) ≠ none) →
      optAll f (l.zip r) ≠ none := by
  intro l
  induction l with
  | nil => intro r _; simp [optAll]
  | cons a as ih =>
    intro r h
    cases r with
    | nil => simp [optAll]
    | cons b bs =>
      simp only [List.zip_cons_cons, optAll]
      cases hc : f (a, b) with
      | none => exact absurd hc (h a (by simp) b)
      | some c =>
        cases c with
        | false => simp
        | true => exact ih (fun x hx => h x (by simp [hx]))

theorem goEqRefl_total : ∀ (k m : Nat) (v : GoVal), goEqRefl m v = true → m ≤ k →
    ∀ w, goEqB k v w ≠ none := by
  intro k
  induction k with
  | zero =>
    intro m v h hm
    have : m = 0 := by omega
    subst this
    exact absurd h (by cases v <;> simp [goEqRefl])
  | succ k ih =>
    intro m v h hm w
    cases m with
    | zero => exact absurd h (by cases v <;> simp [goEqRefl])
    | succ m =>
      simp only [goEqB]
      split
      · simp
      · cases v
        case vstruct =>
          simp only [goEqRefl, List.all_eq_true] at h
          cases w <;> try simp
          split
          · exact optAll_zip_ne_none (fun a ha b => ih m a (h a ha) (by omega) b)
          · simp
        all_goals cases w <;> simp

theorem reflexSafe_deepEqual (heap : Heap) :
    ∀ (k m : Nat) (v : GoVal), reflexSafe m v = true → m ≤ k →
      deepEqual heap k v v = some true := by
  intro k
  induction k with
  | zero =>
    intro m v h hm
    have : m = 0 := by omega
    subst this
    exact absurd h (by cases v <;> simp [reflexSafe])
  | succ k ih =>
    intro m v h hm
    cases m with
    | zero => exact absurd h (by cases v <;> simp [reflexSafe])
    | succ m =>
      cases v <;> simp_all [reflexSafe, deepEqual, typeOf]
      rename_i fvals
      exact optAll_zip_self (fun a ha => ih m a (h a ha) (by omega))

theorem markMatch_self (heap : Heap) (n : Nat) (e : GoVal)
    (he : deepEqual heap n e e = some true) :
    ∀ (pre : List (GoVal × Bool)), (∀ p ∈ pre, p.2 = true) →
      ∀ (post : List (GoVal × Bool)),
      markMatch heap n e (pre ++ (e, false) :: post) =
        some (some (pre ++ (e, true) :: post)) := by
  intro pre
  induction pre with
  | nil =>
    intro _ post
    simp [markMatch, he]
  | cons p pre ih =>
    intro hpre post
    obtain ⟨pv, pf⟩ := p
    have hpf : pf = true := hpre (pv, pf) (by simp)
    subst hpf
    have h3 := ih (fun q hq => hpre q (by simp [hq])) post
    simp only [List.cons_append, markMatch, if_true, List.append_eq, h3]

theorem unorderedLeftLoop_self (heap : Heap) (n : Nat) (path : String) :
    ∀ (suffix : List GoVal) (pre : List (GoVal × Bool)) (res : DiffList),
      (∀ p ∈ pre, p.2 = true) →
      (∀ e ∈ suffix, deepEqual heap n e e = some true) →
      unorderedLeftLoop heap n path suffix
          (pre ++ suffix.map (fun x => (x, false))) res =
        some (res, pre ++ suffix.map (fun x => (x, true))) := by
  intro suffix
  induction suffix with
  | nil =>
    intro pre res _ _
    simp [unorderedLeftLoop]
  | cons e sfx ih =>
    intro pre res hpre hsafe
    simp only [List.map_cons, unorderedLeftLoop,
      markMatch_self heap n e (hsafe e (by simp)) pre hpre (sfx.map (fun x => (x, false)))]
    have h2 := ih (pre ++ [(e, true)]) res
      (by intro q hq; rcases List.mem_append.mp hq with h | h
          · exact hpre q h
          · simp at h; simp [h])
      (fun x hx => hsafe x (by simp [hx]))
    simpa using h2

theorem compareSlicesUnordered_self (heap : Heap) (n : Nat) (path : String)
    (v : GoVal) (res : DiffList)
    (hsafe : ∀ e ∈ sliceElems v, deepEqual heap n e e = some true) :
    compareSlicesUnordered heap n path v v res = some (res, none) := by
  simp only [compareSlicesUnordered]
  have h2 := unorderedLeftLoop_self heap n path (sliceElems v) [] res (by simp) hsafe
  simp only [List.nil_append] at h2
  rw [h2]
  simp [List.filter_map]

theorem countsAdd_ok (n m : Nat) (hm : m ≤ n) (e : GoVal) (he : goEqRefl m e = true) :
    ∀ (T : List (GoVal × Nat)),
      List.Pairwise (fun a b => goEqB n b.1 a.1 = some false) T →
      (∀ p ∈ T, goEqRefl m p.1 = true) →
      ∃ T2, countsAdd n e T = some T2 ∧
        List.Pairwise (fun a b => goEqB n b.1 a.1 = some false) T2 ∧
        (∀ p ∈ T2, p.1 = e ∨ ∃ q ∈ T, p.1 = q.1) := by
  intro T
  induction T with
  | nil =>
    intro _ _
    exact ⟨[(e, 1)], rfl, by simp, by simp⟩
  | cons kc T ih =>
    intro hpw hkeys
    obtain ⟨k, c⟩ := kc
    cases hgo : goEqB n e k with
    | none => exact absurd hgo (goEqRefl_total n m e he hm k)
    | some b =>
      cases b with
      | true =>
        refine ⟨(k, c + 1) :: T, by simp [countsAdd, hgo], ?_, ?_⟩
        · exact List.Pairwise.cons (fun y hy => (List.pairwise_cons.mp hpw).1 y hy)
            (List.pairwise_cons.mp hpw).2
        · intro p hp
          rcases List.mem_cons.mp hp with h | h
          · exact Or.inr ⟨(k, c), by simp, by simp [h]⟩
          · exact Or.inr ⟨p, by simp [h], rfl⟩
      | false =>
        obtain ⟨T2, hT2, hpw2, hmem2⟩ :=
          ih (List.pairwise_cons.mp hpw).2 (fun p hp => hkeys p (by simp [hp]))
        refine ⟨(k, c) :: T2, by simp [countsAdd, hgo, hT2], ?_, ?_⟩
        · refine List.Pairwise.cons ?_ hpw2
          intro y hy
          rcases hmem2 y hy with h | ⟨q, hq, h⟩
          · rw [h]; exact hgo
          · rw [h]; exact (List.pairwise_cons.mp hpw).1 q hq
        · intro p hp
          rcases List.mem_cons.mp hp with h | h
          · exact Or.inr ⟨(k, c), by simp, by simp [h]⟩
          · rcases hmem2 p h with h2 | ⟨q, hq, h2⟩
            · exact Or.inl h2
            · exact Or.inr ⟨q, by simp [hq], h2⟩

theorem buildCounts_ok (n m : Nat) (hm : m ≤ n) :
    ∀ (es : List GoVal), (∀ e ∈ es, goEqRefl m e = true) →
      ∃ T, buildCounts n es = some T ∧
        List.Pairwise (fun a b => goEqB n b.1 a.1 = some false) T ∧
        (∀ p ∈ T, goEqRefl m p.1 = true) := by
  intro es
  induction es with
  | nil => intro _; exact ⟨[], rfl, by simp, by simp⟩
  | cons e es ih =>
    intro hsafe
    obtain ⟨T0, hT0, hpw0, hkeys0⟩ := ih (fun x hx => hsafe x (by simp [hx]))
    obtain ⟨T, hT, hpw, hmem⟩ :=
      countsAdd_ok n m hm e (hsafe e (by simp)) T0 hpw0 hkeys0
    refine ⟨T, by simp [buildCounts, hT0, hT], hpw, ?_⟩
    intro p hp
    rcases hmem p hp with h | ⟨q, hq, h⟩
    · rw [h]; exact hsafe e (by simp)
    · rw [h]; exact hkeys0 q hq

theorem countLookup_self (n m : Nat) (hm : m ≤ n) :
    ∀ (T : List (GoVal × Nat)),
      List.Pairwise (fun a b => goEqB n b.1 a.1 = some false) T →
      (∀ p ∈ T, goEqRefl m p.1 = true) →
      ∀ p ∈ T, countLookup n p.1 T = some p.2 := by
  intro T
  induction T with
  | nil => intro _ _ p hp; exact absurd hp (by simp)
  | cons x T ih =>
    intro hpw hkeys p hp
    rcases List.mem_cons.mp hp with h | h
    · subst h
      have h1 := goEqRefl_self n m p.1 (hkeys p (by simp)) hm
      simp [countLookup, h1]
    · have h1 := (List.pairwise_cons.mp hpw).1 p h
      simp only [countLookup, h1]
      exact ih (List.pairwise_cons.mp hpw).2 (fun q hq => hkeys q (by simp [hq])) p h

theorem countsRemovedLoop_self (n : Nat) (path : String) (T : List (GoVal × Nat)) :
    ∀ (suffix : List (GoVal × Nat)) (res : DiffList),
      (∀ p ∈ suffix, countLookup n p.1 T = some p.2) →
      countsRemovedLoop n path T suffix res = some res := by
  intro suffix
  induction suffix with
  | nil => intro res _; rfl
  | cons p rest ih =>
    intro res hlk
    obtain ⟨elem, c⟩ := p
    have h1 := hlk (elem, c) (by simp)
    simp only [countsRemovedLoop, h1, lt_irrefl, if_false]
    simpa using ih res (fun q hq => hlk q (by simp [hq]))

theorem countsAddedLoop_self (n : Nat) (path : String) (T : List (GoVal × Nat)) :
    ∀ (suffix : List (GoVal × Nat)) (res : DiffList),
      (∀ p ∈ suffix, countLookup n p.1 T = some p.2) →
      countsAddedLoop n path T suffix res = some res := by
  intro suffix
  induction suffix with
  | nil => intro res _; rfl
  | cons p rest ih =>
    intro res hlk
    obtain ⟨elem, c⟩ := p
    have h1 := hlk (elem, c) (by simp)
    simp only [countsAddedLoop, h1, lt_irrefl, if_false]
    simpa using ih res (fun q hq => hlk q (by simp [hq]))

theorem sliceCountDiffs_self (heap : Heap) (n m : Nat) (hm : m ≤ n) (path : String)
    (es : List GoVal) (res : DiffList)
    (hsafe : ∀ e ∈ es, goEqRefl m e = true) :
    sliceCountDiffs n path es es res = some (res, none) := by
  obtain ⟨T, hT, hpw, hkeys⟩ := buildCounts_ok n m hm es hsafe
  have hlk := countLookup_self n m hm T hpw hkeys
  simp only [sliceCountDiffs, hT,
    countsRemovedLoop_self n path T T res hlk,
    countsAddedLoop_self n path T T res hlk]

theorem reflexSafe_elems (m : Nat) (v : GoVal) (h : reflexSafe (m + 1) v = true) :
    ∀ e ∈ sliceElems v, reflexSafe m e = true := by
  cases v <;> simp [sliceElems]
  intro e he
  rename_i ety a es
  simp only [reflexSafe, Bool.and_eq_true, List.all_eq_true] at h
  exact h.1 e he

theorem compareSlicesAdvanced_self (heap : Heap) (n m : Nat) (hm : m + 1 ≤ n)
    (path : String) (v : GoVal) (res : DiffList)
    (hsafe : reflexSafe (m + 1) v = true) :
    compareSlicesAdvanced heap n path v v res = some (res, none) := by
  have hde : ∀ e ∈ sliceElems v, deepEqual heap n e e = some true := by
    intro e he
    exact reflexSafe_deepEqual heap n m e (reflexSafe_elems m v hsafe e he) (by omega)
  by_cases hnil : v.isVnil
  · simp [compareSlicesAdvanced, hnil]
  · simp only [compareSlicesAdvanced, hnil, Bool.false_and, Bool.and_false,
      if_false, Bool.false_eq_true, beq_self_eq_true, Bool.not_true,
      compareSlicesByValue, compareSlicesWithDeepEqual, compareSlicesSimple]
    cases v with
    | vslice ety a es =>
      simp only [reflexSafe, Bool.and_eq_true, List.all_eq_true,
        Bool.or_eq_true] at hsafe
      by_cases hcmp : tyComparable (elemTyOf (.vslice ety a es))
      · simp only [hcmp, Bool.not_true, Bool.false_eq_true, if_false]
        by_cases hlen : (sliceElems (GoVal.vslice ety a es)).length ≤ 5
        · simp only [hlen, decide_eq_true_eq, eq_self_iff_true]
          rw [if_pos (by simp [hlen])]
          exact compareSlicesUnordered_self heap n path _ res hde
        · rw [if_neg (by simp [hlen])]
          have hgo : ∀ e ∈ es, goEqRefl m e = true := by
            rcases hsafe.2 with (h | h) | h
            · simp only [elemTyOf] at hcmp
              simp [hcmp] at h
            · simp only [decide_eq_true_eq] at h
              simp only [sliceElems] at hlen
              omega
            · simpa using h
          exact sliceCountDiffs_self heap n m (by omega) path _ res
            (by simpa [sliceElems] using hgo)
      · simp only [hcmp, Bool.not_false, if_true]
        exact compareSlicesUnordered_self heap n path _ res hde
    | vnil => exact absurd rfl hnil
    | vbool b => exact compareSlicesUnordered_self heap n path _ res hde
    | vint w i => exact compareSlicesUnordered_self heap n path _ res hde
    | vuint w i => exact compareSlicesUnordered_self heap n path _ res hde
    | vfloat32 x => exact compareSlicesUnordered_self heap n path _ res hde
    | vfloat64 x => exact compareSlicesUnordered_self heap n path _ res hde
    | vcomplex64 x y => exact compareSlicesUnordered_self heap n path _ res hde
    | vcomplex128 x y => exact compareSlicesUnordered_self heap n path _ res hde
    | vstring s => exact compareSlicesUnordered_self heap n path _ res hde
    | vtime t => exact compareSlicesUnordered_self heap n path _ res hde
    | vstruct nm cm fts fvs => exact compareSlicesUnordered_self heap n path _ res hde
    | vmap kt vt a en => exact compareSlicesUnordered_self heap n path _ res hde
    | vptr ety a => exact compareSlicesUnordered_self heap n path _ res hde
    | vfunc sig a => exact compareSlicesUnordered_self heap n path _ res hde
    | vchan ety a => exact compareSlicesUnordered_self heap n path _ res hde

theorem sliceOrderedLoop_self (heap : Heap) (rec : RecFn) (n : Nat) (path : String)
    (es : List GoVal) (config : CompareConfig) (visited : Visited)
    (hrec : ∀ e ∈ es, ∀ (p : String) (res : DiffList) (vis : Visited),
      rec p e e res config vis = some (res, none))
    (hde : ∀ e ∈ es, deepEqual heap n e e = some true) :
    ∀ (rem i : Nat) (res : DiffList), rem + i = es.length →
      sliceOrderedLoop heap rec n path es es config visited rem i res =
        some (res, none) := by
  intro rem
  induction rem with
  | zero => intro i res _; rfl
  | succ rem ih =>
    intro i res hlen
    have hi : i < es.length := by omega
    have hget : es.get? i = some (es.get ⟨i, hi⟩) := List.get?_eq_get hi
    have hmem : es.get ⟨i, hi⟩ ∈ es := List.get_mem es i hi
    simp only [sliceOrderedLoop, hget]
    split
    · rw [hde _ hmem, hrec _ hmem]
      exact ih (i + 1) res (by omega)
    · rw [hrec _ hmem]
      exact ih (i + 1) res (by omega)

theorem compareSlices_self (heap : Heap) (rec : RecFn) (n m : Nat) (hm : m + 1 ≤ n)
    (path : String) (v : GoVal) (res : DiffList) (config : CompareConfig)
    (visited : Visited) (hsafe : reflexSafe (m + 1) v = true)
    (hrec : config.IgnoreSliceOrder = false →
      ∀ e ∈ sliceElems v, ∀ (p : String) (res2 : DiffList) (vis : Visited),
        rec p e e res2 config vis = some (res2, none)) :
    compareSlices heap rec n path v v res config visited = some (res, none) := by
  simp only [compareSlices]
  split
  · exact compareSlicesAdvanced_self heap n m hm path v res hsafe
  · rename_i hord
    have hde : ∀ e ∈ sliceElems v, deepEqual heap n e e = some true := fun e he =>
      reflexSafe_deepEqual heap n m e (reflexSafe_elems m v hsafe e he) (by omega)
    have h2 := sliceOrderedLoop_self heap rec n path (sliceElems v) config visited
      (hrec (by simpa using hord)) hde (max (sliceElems v).length (sliceElems v).length)
      0 res (by simp)
    simpa using h2

theorem reflexSafe_zero (v : GoVal) : reflexSafe 0 v = false := by
  cases v <;> rfl

theorem isFieldIgnored_default (fp fn : String) (typ : GoTy) :
    isFieldIgnored fp fn typ DefaultCompareConfig = false := rfl

theorem structFieldsLoop_self (heap : Heap) (rec : RecFn) (n m0 : Nat) (hm : m0 < n)
    (path : String) (typ : GoTy) (visited : Visited)
    (hrec : ∀ (m2 : Nat) (x : GoVal), m2 < n → reflexSafe m2 x = true →
      ∀ (p : String) (res : DiffList) (vis : Visited),
        rec p x x res DefaultCompareConfig vis = some (res, none)) :
    ∀ (ftys : List FieldTy) (l : List GoVal) (res : DiffList),
      (∀ v ∈ l, reflexSafe m0 v = true) →
      structFieldsLoop heap rec n path typ DefaultCompareConfig visited ftys l l res =
        some (res, none) := by
  intro ftys
  induction ftys with
  | nil => intro l res _; cases l <;> rfl
  | cons fty ftys ih =>
    intro l res hsafe
    cases l with
    | nil => rfl
    | cons v vs =>
      have hv := hsafe v (by simp)
      have htl : ∀ w ∈ vs, reflexSafe m0 w = true := fun w hw => hsafe w (by simp [hw])
      obtain ⟨m1, rfl⟩ : ∃ m1, m0 = m1 + 1 := by
        cases m0 with
        | zero => rw [reflexSafe_zero] at hv; exact Bool.noConfusion hv
        | succ m1 => exact ⟨m1, rfl⟩
      simp only [structFieldsLoop, isFieldIgnored_default, Bool.false_or]
      split
      · exact ih vs res htl
      · split
        · exact ih vs res htl
        · split
          · by_cases htag : hasDiffTag fty.ftag "ignoreOrder" = true
            · rw [if_pos htag,
                compareSlices_self heap rec n m1 (by omega) _ v res _ visited hv
                  (fun hord => absurd hord (by simp [ignoreOrderConfig]))]
              exact ih vs res htl
            · rw [if_neg htag,
                compareSlices_self heap rec n m1 (by omega) _ v res _ visited hv
                  (fun _ e he p res2 vis =>
                    hrec m1 e (by omega) (reflexSafe_elems m1 v hv e he) p res2 vis)]
              exact ih vs res htl
          · rw [reflexSafe_deepEqual heap n (m1 + 1) v hv (by omega)]
            exact ih vs res htl

theorem pathIgnored_default (p : String) :
    pathIgnored DefaultCompareConfig p = false := rfl

theorem compareValues_self (heap : Heap) :
    ∀ (f m : Nat) (x : GoVal), reflexSafe m x = true → m < f →
      ∀ (path : String) (res : DiffList) (visited : Visited),
        compareValues heap f path x x res DefaultCompareConfig visited =
          some (res, none) := by
  intro f
  induction f with
  | zero => intro m x _ hm; omega
  | succ n ih =>
    intro m x hsafe hm path res visited
    obtain ⟨m1, rfl⟩ : ∃ m1, m = m1 + 1 := by
      cases m with
      | zero => rw [reflexSafe_zero] at hsafe; exact Bool.noConfusion hsafe
      | succ m1 => exact ⟨m1, rfl⟩
    obtain ⟨n1, rfl⟩ : ∃ n1, n = n1 + 1 := ⟨n - 1, by omega⟩
    show compareValuesF heap (compareValues heap (n1 + 1)) (n1 + 1) path x x res
      DefaultCompareConfig visited = some (res, none)
    cases x with
    | vnil => rfl
    | vbool b =>
      simp [compareValuesF, pathIgnored_default, sameReference, handleInvalidValues,
        GoVal.isVnil, typeOf, kindOf, kindOfTy, tyComparable, goEqB,
        DefaultCompareConfig, DefaultTypeHandlers, TimeHandler, InterfaceHandler,
        FunctionHandler, ChannelHandler, List.find?, instBEqOfDecidableEq]
    | vint w i =>
      simp [compareValuesF, pathIgnored_default, sameReference, handleInvalidValues,
        GoVal.isVnil, typeOf, kindOf, kindOfTy, tyComparable, goEqB,
        DefaultCompareConfig, DefaultTypeHandlers, TimeHandler, InterfaceHandler,
        FunctionHandler, ChannelHandler, List.find?, instBEqOfDecidableEq]
    | vuint w i =>
      simp [compareValuesF, pathIgnored_default, sameReference, handleInvalidValues,
        GoVal.isVnil, typeOf, kindOf, kindOfTy, tyComparable, goEqB,
        DefaultCompareConfig, DefaultTypeHandlers, TimeHandler, InterfaceHandler,
        FunctionHandler, ChannelHandler, List.find?, instBEqOfDecidableEq]
    | vstring s =>
      simp [compareValuesF, pathIgnored_default, sameReference, handleInvalidValues,
        GoVal.isVnil, typeOf, kindOf, kindOfTy, tyComparable, goEqB,
        DefaultCompareConfig, DefaultTypeHandlers, TimeHandler, InterfaceHandler,
        FunctionHandler, ChannelHandler, List.find?, instBEqOfDecidableEq]
    | vfloat32 a =>
      simp only [reflexSafe] at hsafe
      simp [compareValuesF, pathIgnored_default, sameReference, handleInvalidValues,
        GoVal.isVnil, typeOf, kindOf, kindOfTy, tyComparable, goEqB, hsafe,
        DefaultCompareConfig, DefaultTypeHandlers, TimeHandler, InterfaceHandler,
        FunctionHandler, ChannelHandler, List.find?, instBEqOfDecidableEq]
    | vfloat64 a =>
      simp only [reflexSafe] at hsafe
      simp [compareValuesF, pathIgnored_default, sameReference, handleInvalidValues,
        GoVal.isVnil, typeOf, kindOf, kindOfTy, tyComparable, goEqB, hsafe,
        DefaultCompareConfig, DefaultTypeHandlers, TimeHandler, InterfaceHandler,
        FunctionHandler, ChannelHandler, List.find?, instBEqOfDecidableEq]
    | vcomplex64 a b =>
      simp only [reflexSafe, Bool.and_eq_true] at hsafe
      simp [compareValuesF, pathIgnored_default, sameReference, handleInvalidValues,
        GoVal.isVnil, typeOf, kindOf, kindOfTy, tyComparable, goEqB, hsafe.1, hsafe.2,
        DefaultCompareConfig, DefaultTypeHandlers, TimeHandler, InterfaceHandler,
        FunctionHandler, ChannelHandler, List.find?, instBEqOfDecidableEq]
    | vcomplex128 a b =>
      simp only [reflexSafe, Bool.and_eq_true] at hsafe
      simp [compareValuesF, pathIgnored_default, sameReference, handleInvalidValues,
        GoVal.isVnil, typeOf, kindOf, kindOfTy, tyComparable, goEqB, hsafe.1, hsafe.2,
        DefaultCompareConfig, DefaultTypeHandlers, TimeHandler, InterfaceHandler,
        FunctionHandler, ChannelHandler, List.find?, instBEqOfDecidableEq]
    | vtime t =>
      simp [compareValuesF, pathIgnored_default, sameReference, handleInvalidValues,
        GoVal.isVnil, typeOf, kindOf, kindOfTy, DefaultCompareConfig,
        DefaultTypeHandlers, TimeHandler, List.find?, instBEqOfDecidableEq]
    | vslice ety a es =>
      simp [compareValuesF, pathIgnored_default, sameReference,
        GoVal.isVnil, typeOf, kindOf, kindOfTy, refPointer, DefaultCompareConfig, instBEqOfDecidableEq]
    | vmap kt vt a en =>
      simp [compareValuesF, pathIgnored_default, sameReference,
        GoVal.isVnil, typeOf, kindOf, kindOfTy, refPointer, DefaultCompareConfig, instBEqOfDecidableEq]
    | vptr ety a =>
      simp [compareValuesF, pathIgnored_default, sameReference,
        GoVal.isVnil, typeOf, kindOf, kindOfTy, refPointer, DefaultCompareConfig, instBEqOfDecidableEq]
    | vfunc sig a =>
      simp [compareValuesF, pathIgnored_default, sameReference,
        GoVal.isVnil, typeOf, kindOf, kindOfTy, refPointer, DefaultCompareConfig, instBEqOfDecidableEq]
    | vchan ety a =>
      simp [compareValuesF, pathIgnored_default, sameReference,
        GoVal.isVnil, typeOf, kindOf, kindOfTy, refPointer, DefaultCompareConfig, instBEqOfDecidableEq]
    | vstruct nm cm fts fvs =>
      simp only [reflexSafe, List.all_eq_true] at hsafe
      have hmain := structFieldsLoop_self heap (compareValues heap (n1 + 1)) (n1 + 1) m1
        (by omega) path (.tStruct nm cm) visited
        (fun m2 y hm2 hy p r v => ih m2 y hy hm2 p r v)
        fts fvs res hsafe
      have hfind : List.find? (fun h => h.CanHandle (GoTy.tStruct nm cm))
          DefaultTypeHandlers = none := by
        simp [DefaultTypeHandlers, TimeHandler, InterfaceHandler,
          FunctionHandler, ChannelHandler, kindOfTy, List.find?, instBEqOfDecidableEq]
      generalize hR : compareValues heap (n1 + 1) = R
      rw [hR] at hmain
      simp [compareValuesF, pathIgnored, sameReference, handleInvalidValues,
        GoVal.isVnil, typeOf, kindOf, kindOfTy, compareStructs, hfind,
        instBEqOfDecidableEq, DefaultCompareConfig]
      exact hmain

theorem Compare_default_run (heap : Heap) (fuel : Nat) (l r : GoVal) :
    Compare heap fuel l r [] =
      (match compareValues heap fuel "" l r [] DefaultCompareConfig [] with
        | none => none
        | some (_, some e) => some (none, some e)
        | some (diffs, none) => some (some diffs, none)) := rfl

/-- C1 counterexample: comparing the float64 NaN with itself under the
default configuration yields one diff, not zero — `==` on floats is IEEE
equality and NaN is unequal to itself, and the engine reports the
resulting inequality as an Updated diff at the root path. -/
theorem compare_reflexivity_nan_counterexample :
    Compare [] 2 (.vfloat64 .nan) (.vfloat64 .nan) [] =
      some (some [.base "" (.vfloat64 .nan) (.vfloat64 .nan)], none) := rfl

/-- C1 amended: self-comparison under the default configuration yields
zero diffs for every `reflexSafe` value — no NaN float/complex component
reachable through struct fields or slice elements, function-typed values
nil — including cyclic and self-referential structures (map contents and
pointer targets are unconstrained: the engine short-circuits both on the
shared reference). -/
theorem compare_reflexivity_amended (heap : Heap) (fuel m : Nat) (x : GoVal)
    (hsafe : reflexSafe m x = true) (hm : m < fuel) :
    Compare heap fuel x x [] = some (some [], none) := by
  rw [Compare_default_run, compareValues_self heap fuel m x hsafe hm "" [] []]

/-- C1 amended witness: a one-field struct value is reflexSafe and
self-compares to the empty diff list. -/
theorem compare_reflexivity_amended_witness :
    reflexSafe 2 (.vstruct "P" false
      [("Age", "", true, .tInt .i)] [.vint .i 3]) = true ∧
    Compare [] 3 (.vstruct "P" false [("Age", "", true, .tInt .i)] [.vint .i 3])
      (.vstruct "P" false [("Age", "", true, .tInt .i)] [.vint .i 3]) [] =
      some (some [], none) :=
  ⟨by rfl,
   compare_reflexivity_amended [] 3 2
     (.vstruct "P" false [("Age", "", true, .tInt .i)] [.vint .i 3])
     (by rfl) (by omega)⟩

/-- Keys for the scalar values on which the two order-insensitive slice
strategies are compared: bools, sized ints and uints, strings.  On these,
Go `==` and reflect.DeepEqual both coincide with structural equality. -/
inductive SKey where
  | kb (x : Bool)
  | ki (w : IntW) (x : ℤ)
  | ku (w : UintW) (x : ℕ)
  | kst (x : String)
deriving DecidableEq

/-- The scalar value a key denotes. -/
def unKey : SKey → GoVal
  | .kb x => .vbool x
  | .ki w x => .vint w x
  | .ku w x => .vuint w x
  | .kst x => .vstring x

/-- Mark the first unmatched flag equal to `e` (the key-level mirror of
the inner loop of the greedy strategy). -/
def markK (e : SKey) : List (SKey × Bool) → List (SKey × Bool)
  | [] => []
  | (r, matched) :: rest =>
    if matched then (r, matched) :: markK e rest
    else if r == e then (r, true) :: rest
    else (r, false) :: markK e rest

/-- The unmatched keys of a flag list, in order. -/
def unmatchedK (flags : List (SKey × Bool)) : List SKey :=
  (flags.filter (fun p => !p.2)).map (fun p => p.1)

/-- Key-level mirror of the greedy outer loop: the unmatched left keys in
order, and the final flags. -/
def loopK : List SKey → List (SKey × Bool) → List SKey × List (SKey × Bool)
  | [], flags => ([], flags)
  | e :: ls, flags =>
    if (unmatchedK flags).contains e then loopK ls (markK e flags)
    else
      let p := loopK ls flags
      (e :: p.1, p.2)

/-- Key-level mirror of `counts[elem]++`. -/
def addK (e : SKey) : List (SKey × Nat) → List (SKey × Nat)
  | [] => [(e, 1)]
  | (k, c) :: rest => if e == k then (k, c + 1) :: rest else (k, c) :: addK e rest

/-- Key-level mirror of buildCounts. -/
def buildK : List SKey → List (SKey × Nat)
  | [] => []
  | e :: es => addK e (buildK es)

/-- Key-level mirror of a counts lookup. -/
def lookK (e : SKey) : List (SKey × Nat) → Nat
  | [] => 0
  | (k, c) :: rest => if e == k then c else lookK e rest

theorem unKey_inj : ∀ {a b : SKey}, unKey a = unKey b → a = b := by
  intro a b h
  cases a <;> cases b <;> simp [unKey] at h <;> simp_all

theorem goEqB_unKey (n : Nat) (a b : SKey) :
    goEqB (n + 1) (unKey a) (unKey b) = some (a == b) := by
  cases a <;> cases b <;>
    simp [unKey, goEqB, typeOf, instBEqOfDecidableEq] <;>
    try (rename_i w x w2 y; by_cases hw : w = w2 <;> simp [hw]) <;>
    try (intro h; simp [h])

theorem deepEqual_unKey (heap : Heap) (n : Nat) (a b : SKey) :
    deepEqual heap (n + 1) (unKey a) (unKey b) = some (a == b) := by
  cases a <;> cases b <;>
    simp [unKey, deepEqual, typeOf, instBEqOfDecidableEq] <;>
    try (rename_i w x w2 y; by_cases hw : w = w2 <;> simp [hw]) <;>
    try (intro h; simp [h])

/-- C10 counterexample: pointer is a comparable element type, yet on
single-pointer slices whose pointers differ in address but agree in
target, the greedy DeepEqual strategy reports no diffs while the
counting `==` strategy reports one Removed and one Added — not the same
multiset of diff values. -/
theorem slice_strategy_counterexample :
    tyComparable (.tPtr (.tInt .i)) = true ∧
    compareSlicesUnordered [(1, .vint .i 7), (2, .vint .i 7)] 3 "s"
      (.vslice (.tPtr (.tInt .i)) (some 10) [.vptr (.tInt .i) (some 1)])
      (.vslice (.tPtr (.tInt .i)) (some 11) [.vptr (.tInt .i) (some 2)]) [] =
      some ([], none) ∧
    sliceCountDiffs 3 "s" [.vptr (.tInt .i) (some 1)] [.vptr (.tInt .i) (some 2)] [] =
      some ([.base "s" (.vptr (.tInt .i) (some 1)) .vnil,
             .base "s" .vnil (.vptr (.tInt .i) (some 2))], none) ∧
    ¬ ([] : DiffList).Perm [.base "s" (.vptr (.tInt .i) (some 1)) .vnil,
             .base "s" .vnil (.vptr (.tInt .i) (some 2))] :=
  ⟨rfl, rfl, rfl, fun h => by simpa using h.length_eq⟩

theorem unmatchedK_cons_true (r : SKey) (rest : List (SKey × Bool)) :
    unmatchedK ((r, true) :: rest) = unmatchedK rest := by
  simp [unmatchedK]

theorem unmatchedK_cons_false (r : SKey) (rest : List (SKey × Bool)) :
    unmatchedK ((r, false) :: rest) = r :: unmatchedK rest := by
  simp [unmatchedK]

theorem markMatch_unKey (heap : Heap) (n : Nat) (e : SKey) :
    ∀ (kflags : List (SKey × Bool)),
      markMatch heap (n + 1) (unKey e) (kflags.map (fun p => (unKey p.1, p.2))) =
        (if (unmatchedK kflags).contains e then
          some (some ((markK e kflags).map (fun p => (unKey p.1, p.2))))
        else some none) := by
  intro kflags
  induction kflags with
  | nil => simp [markMatch, unmatchedK]
  | cons p rest ih =>
    obtain ⟨r, matched⟩ := p
    cases matched with
    | true =>
      simp only [List.map_cons, markMatch, if_true, ih, unmatchedK_cons_true, markK]
      by_cases hc : e ∈ unmatchedK rest
      · simp [hc]
      · simp [hc]
    | false =>
      simp only [List.map_cons, markMatch, Bool.false_eq_true, if_false,
        deepEqual_unKey heap n e r, unmatchedK_cons_false, markK]
      by_cases her : e = r
      · subst her
        simp [List.contains_cons]
      · have h1 : (e == r) = false := by simp [her]
        have h2 : (r == e) = false := by simp [Ne.symm her]
        simp only [h1, h2, ih, List.contains_cons, Bool.false_or, Bool.false_eq_true,
          if_false]
        by_cases hc : e ∈ unmatchedK rest
        · simp [hc, her]
        · simp [hc, her]

theorem unorderedLeftLoop_unKey (heap : Heap) (n : Nat) (path : String) :
    ∀ (ls : List SKey) (kflags : List (SKey × Bool)) (res : DiffList),
      unorderedLeftLoop heap (n + 1) path (ls.map unKey)
          (kflags.map (fun p => (unKey p.1, p.2))) res =
        some (res ++ (loopK ls kflags).1.map (fun k => DiffRec.base path (unKey k) .vnil),
          ((loopK ls kflags).2).map (fun p => (unKey p.1, p.2))) := by
  intro ls
  induction ls with
  | nil =>
    intro kflags res
    simp [unorderedLeftLoop, loopK]
  | cons e ls ih =>
    intro kflags res
    simp only [List.map_cons, unorderedLeftLoop, markMatch_unKey heap n e kflags]
    by_cases hc : e ∈ unmatchedK kflags
    · rw [if_pos (by simpa using hc)]
      simp only [loopK]
      rw [if_pos (by simpa using hc)]
      exact ih (markK e kflags) res
    · rw [if_neg (by simpa using hc)]
      simp only [loopK]
      rw [if_neg (by simpa using hc)]
      rw [ih kflags (res ++ [DiffRec.base path (unKey e) GoVal.vnil])]
      simp

theorem compareSlicesUnordered_unKey (heap : Heap) (n : Nat) (path : String)
    (ety1 ety2 : GoTy) (la ra : Option Nat) (ks rs : List SKey) (res : DiffList) :
    compareSlicesUnordered heap (n + 1) path
        (.vslice ety1 la (ks.map unKey)) (.vslice ety2 ra (rs.map unKey)) res =
      some (res ++
        (loopK ks (rs.map (fun k => (k, false)))).1.map
          (fun k => DiffRec.base path (unKey k) .vnil) ++
        (unmatchedK (loopK ks (rs.map (fun k => (k, false)))).2).map
          (fun k => DiffRec.base path .vnil (unKey k)), none) := by
  simp only [compareSlicesUnordered, sliceElems]
  have hmm2 : (rs.map unKey).map (fun e => (e, false)) =
      (rs.map (fun k => (k, false))).map (fun p => (unKey p.1, p.2)) := by
    simp [List.map_map]
  rw [hmm2, unorderedLeftLoop_unKey heap n path ks (rs.map (fun k => (k, false))) res]
  simp only [Option.some.injEq, Prod.mk.injEq, List.append_assoc, and_true]
  congr 1
  congr 1
  simp only [unmatchedK, List.filter_map, List.map_map]
  rfl

theorem unmatchedK_markK (e : SKey) :
    ∀ (flags : List (SKey × Bool)), e ∈ unmatchedK flags →
      unmatchedK (markK e flags) = (unmatchedK flags).erase e := by
  intro flags
  induction flags with
  | nil => intro h; simp [unmatchedK] at h
  | cons p rest ih =>
    obtain ⟨r, matched⟩ := p
    cases matched with
    | true =>
      intro h
      rw [unmatchedK_cons_true] at h
      simp only [markK, if_true, unmatchedK_cons_true, ih h, unmatchedK_cons_true]
    | false =>
      intro h
      by_cases her : r = e
      · subst her
        simp [markK, unmatchedK_cons_false, unmatchedK_cons_true, List.erase_cons_head]
      · have h2 : (r == e) = false := by simp [her]
        rw [unmatchedK_cons_false] at h
        have he2 : e ∈ unmatchedK rest := by
          rcases List.mem_cons.mp h with h3 | h3
          · exact absurd h3.symm her
          · exact h3
        simp only [markK, h2, Bool.false_eq_true, if_false, unmatchedK_cons_false,
          ih he2]
        rw [List.erase_cons_tail]
        simp [her]

theorem cons_sub_of_not_mem {e : SKey} {s t : Multiset SKey} (h : e ∉ t) :
    (e ::ₘ s) - t = e ::ₘ (s - t) := by
  ext a
  by_cases ha : a = e
  · subst ha
    have : t.count a = 0 := Multiset.count_eq_zero.mpr h
    simp [Multiset.count_sub, Multiset.count_cons, this]
  · simp [Multiset.count_sub, Multiset.count_cons, ha]

theorem loopK_multiset : ∀ (ls : List SKey) (flags : List (SKey × Bool)),
    ((loopK ls flags).1 : Multiset SKey) = (ls : Multiset SKey) - (unmatchedK flags) ∧
    ((unmatchedK (loopK ls flags).2 : Multiset SKey)) =
      (unmatchedK flags : Multiset SKey) - ls := by
  intro ls
  induction ls with
  | nil =>
    intro flags
    simp [loopK, Multiset.zero_sub, Multiset.sub_zero]
  | cons e ls ih =>
    intro flags
    have hcc : ((e :: ls : List SKey) : Multiset SKey) = e ::ₘ (ls : Multiset SKey) := rfl
    by_cases hc : e ∈ unmatchedK flags
    · simp only [loopK]
      rw [if_pos (by simpa using hc)]
      obtain ⟨h1, h2⟩ := ih (markK e flags)
      have herase : (unmatchedK flags : Multiset SKey) =
          e ::ₘ ((unmatchedK flags : Multiset SKey).erase e) :=
        (Multiset.cons_erase (by simpa using hc)).symm
      constructor
      · rw [h1, unmatchedK_markK e flags hc, ← Multiset.coe_erase, hcc, herase,
          Multiset.erase_cons_head, Multiset.sub_cons, Multiset.erase_cons_head]
      · rw [h2, unmatchedK_markK e flags hc, ← Multiset.coe_erase, hcc,
          Multiset.sub_cons]
    · simp only [loopK]
      rw [if_neg (by simpa using hc)]
      obtain ⟨h1, h2⟩ := ih flags
      constructor
      · have : ((e :: (loopK ls flags).1 : List SKey) : Multiset SKey) =
            e ::ₘ ((loopK ls flags).1 : Multiset SKey) := rfl
        rw [this, h1, hcc, cons_sub_of_not_mem (by simpa using hc)]
      · rw [h2, hcc, Multiset.sub_cons,
          Multiset.erase_of_not_mem (by simpa using hc)]

theorem unmatchedK_init : ∀ (rs : List SKey),
    unmatchedK (rs.map (fun k => (k, false))) = rs := by
  intro rs
  induction rs with
  | nil => rfl
  | cons r rs ih => simp only [List.map_cons, unmatchedK_cons_false, ih]

theorem countsAdd_unKey (n : Nat) (e : SKey) :
    ∀ (T : List (SKey × Nat)),
      countsAdd (n + 1) (unKey e) (T.map (fun p => (unKey p.1, p.2))) =
        some ((addK e T).map (fun p => (unKey p.1, p.2))) := by
  intro T
  induction T with
  | nil => rfl
  | cons p rest ih =>
    obtain ⟨k, c⟩ := p
    simp only [List.map_cons, countsAdd, goEqB_unKey n e k, addK]
    by_cases hek : e = k
    · simp [hek]
    · have h1 : (e == k) = false := by simp [hek]
      simp [h1, ih]

theorem buildCounts_unKey (n : Nat) :
    ∀ (ls : List SKey),
      buildCounts (n + 1) (ls.map unKey) =
        some ((buildK ls).map (fun p => (unKey p.1, p.2))) := by
  intro ls
  induction ls with
  | nil => rfl
  | cons e ls ih =>
    simp only [List.map_cons, buildCounts, ih, countsAdd_unKey n e (buildK ls), buildK]

theorem countLookup_unKey (n : Nat) (e : SKey) :
    ∀ (T : List (SKey × Nat)),
      countLookup (n + 1) (unKey e) (T.map (fun p => (unKey p.1, p.2))) =
        some (lookK e T) := by
  intro T
  induction T with
  | nil => rfl
  | cons p rest ih =>
    obtain ⟨k, c⟩ := p
    simp only [List.map_cons, countLookup, goEqB_unKey n e k, lookK]
    by_cases hek : e = k
    · simp [hek]
    · have h1 : (e == k) = false := by simp [hek]
      simp [h1, ih]

/-- The removed (or added) keys the counting strategy derives from a
table against a reference table: per entry, `count - reference count`
occurrences of the key. -/
def diffKeys (RC : List (SKey × Nat)) : List (SKey × Nat) → List SKey
  | [] => []
  | (k, c) :: rest => List.replicate (c - lookK k RC) k ++ diffKeys RC rest

theorem countsRemovedLoop_unKey (n : Nat) (path : String) (RC : List (SKey × Nat)) :
    ∀ (T : List (SKey × Nat)) (res : DiffList),
      countsRemovedLoop (n + 1) path (RC.map (fun p => (unKey p.1, p.2)))
          (T.map (fun p => (unKey p.1, p.2))) res =
        some (res ++ (diffKeys RC T).map (fun k => DiffRec.base path (unKey k) .vnil)) := by
  intro T
  induction T with
  | nil => intro res; simp [countsRemovedLoop, diffKeys]
  | cons p rest ih =>
    intro res
    obtain ⟨k, c⟩ := p
    simp only [List.map_cons, countsRemovedLoop, countLookup_unKey n k RC, diffKeys]
    by_cases hgt : c > lookK k RC
    · rw [if_pos hgt, ih]
      simp [List.replicate, List.map_replicate]
    · rw [if_neg hgt, ih]
      have : c - lookK k RC = 0 := by omega
      simp [this]

theorem countsAddedLoop_unKey (n : Nat) (path : String) (LC : List (SKey × Nat)) :
    ∀ (T : List (SKey × Nat)) (res : DiffList),
      countsAddedLoop (n + 1) path (LC.map (fun p => (unKey p.1, p.2)))
          (T.map (fun p => (unKey p.1, p.2))) res =
        some (res ++ (diffKeys LC T).map (fun k => DiffRec.base path .vnil (unKey k))) := by
  intro T
  induction T with
  | nil => intro res; simp [countsAddedLoop, diffKeys]
  | cons p rest ih =>
    intro res
    obtain ⟨k, c⟩ := p
    simp only [List.map_cons, countsAddedLoop, countLookup_unKey n k LC, diffKeys]
    by_cases hgt : c > lookK k LC
    · rw [if_pos hgt, ih]
      simp [List.replicate, List.map_replicate]
    · rw [if_neg hgt, ih]
      have : c - lookK k LC = 0 := by omega
      simp [this]

theorem sliceCountDiffs_unKey (heap : Heap) (n : Nat) (path : String)
    (ks rs : List SKey) (res : DiffList) :
    sliceCountDiffs (n + 1) path (ks.map unKey) (rs.map unKey) res =
      some (res ++
        (diffKeys (buildK rs) (buildK ks)).map (fun k => DiffRec.base path (unKey k) .vnil) ++
        (diffKeys (buildK ks) (buildK rs)).map (fun k => DiffRec.base path .vnil (unKey k)),
        none) := by
  simp only [sliceCountDiffs, buildCounts_unKey n ks, buildCounts_unKey n rs,
    countsRemovedLoop_unKey n path (buildK rs) (buildK ks) res]
  rw [countsAddedLoop_unKey n path (buildK ks) (buildK rs)]

theorem lookK_addK (k e : SKey) :
    ∀ (T : List (SKey × Nat)),
      lookK k (addK e T) = lookK k T + (if k = e then 1 else 0) := by
  intro T
  induction T with
  | nil =>
    simp only [addK, lookK]
    by_cases hk : k = e
    · simp [hk]
    · have : (k == e) = false := by simp [hk]
      simp [this, hk]
  | cons p rest ih =>
    obtain ⟨k2, c⟩ := p
    simp only [addK]
    by_cases hek : e = k2
    · subst hek
      simp only [beq_self_eq_true, if_true, lookK]
      by_cases hke : k = e
      · simp [hke]
      · have : (k == e) = false := by simp [hke]
        simp [this, hke]
    · have h1 : (e == k2) = false := by simp [hek]
      simp only [h1, Bool.false_eq_true, if_false, lookK]
      by_cases hkk : k = k2
      · have h2 : (k == k2) = true := by simp [hkk]
        have h3 : ¬(k = e) := by rw [hkk]; exact fun h => hek h.symm
        simp [h2, h3]
      · have h2 : (k == k2) = false := by simp [hkk]
        simp [h2, ih]

theorem lookK_buildK (k : SKey) :
    ∀ (ls : List SKey), lookK k (buildK ls) = ls.count k := by
  intro ls
  induction ls with
  | nil => rfl
  | cons e ls ih =>
    simp only [buildK, lookK_addK k e, ih, List.count_cons]
    by_cases hk : k = e
    · simp [hk]
    · have : (e == k) = false := by simp [Ne.symm hk]
      simp [hk, this]

theorem keys_addK_mem (e : SKey) :
    ∀ (T : List (SKey × Nat)), e ∈ T.map (fun p => p.1) →
      (addK e T).map (fun p => p.1) = T.map (fun p => p.1) := by
  intro T
  induction T with
  | nil => intro h; simp at h
  | cons p rest ih =>
    intro h
    obtain ⟨k2, c⟩ := p
    by_cases hek : e = k2
    · simp [addK, hek]
    · have h1 : (e == k2) = false := by simp [hek]
      have h2 : e ∈ rest.map (fun p => p.1) := by
        simp only [List.map_cons, List.mem_cons] at h
        rcases h with h | h
        · exact absurd h hek
        · exact h
      simp only [addK, h1, Bool.false_eq_true, if_false, List.map_cons, ih h2]

theorem keys_addK_not_mem (e : SKey) :
    ∀ (T : List (SKey × Nat)), e ∉ T.map (fun p => p.1) →
      (addK e T).map (fun p => p.1) = T.map (fun p => p.1) ++ [e] := by
  intro T
  induction T with
  | nil => intro _; simp [addK]
  | cons p rest ih =>
    intro h
    obtain ⟨k2, c⟩ := p
    simp only [List.map_cons, List.mem_cons, not_or] at h
    have h1 : (e == k2) = false := by simp [h.1]
    simp only [addK, h1, Bool.false_eq_true, if_false, List.map_cons, ih h.2,
      List.cons_append]

theorem lookK_eq_zero_of_not_mem (k : SKey) :
    ∀ (T : List (SKey × Nat)), k ∉ T.map (fun p => p.1) → lookK k T = 0 := by
  intro T
  induction T with
  | nil => intro _; rfl
  | cons p rest ih =>
    intro h
    obtain ⟨k2, c⟩ := p
    simp only [List.map_cons, List.mem_cons, not_or] at h
    have h1 : (k == k2) = false := by simp [h.1]
    simp only [lookK, h1, Bool.false_eq_true, if_false]
    exact ih h.2

theorem nodup_keys_buildK :
    ∀ (ls : List SKey), ((buildK ls).map (fun p => p.1)).Nodup := by
  intro ls
  induction ls with
  | nil => simp [buildK]
  | cons e ls ih =>
    simp only [buildK]
    by_cases hmem : e ∈ (buildK ls).map (fun p => p.1)
    · rw [keys_addK_mem e (buildK ls) hmem]
      exact ih
    · rw [keys_addK_not_mem e (buildK ls) hmem]
      refine List.Nodup.append ih (by simp) ?_
      intro x hx hx2
      simp at hx2
      subst hx2
      exact hmem hx

theorem count_diffKeys (RC : List (SKey × Nat)) :
    ∀ (T : List (SKey × Nat)), ((T.map (fun p => p.1)).Nodup) →
      ∀ (x : SKey), (diffKeys RC T).count x = lookK x T - lookK x RC := by
  intro T
  induction T with
  | nil => intro _ x; simp [diffKeys, lookK]
  | cons p rest ih =>
    intro hnd x
    obtain ⟨k, c⟩ := p
    simp only [List.map_cons, List.nodup_cons] at hnd
    simp only [diffKeys, List.count_append, List.count_replicate, lookK]
    by_cases hxk : x = k
    · subst hxk
      have hz : lookK x rest = 0 := lookK_eq_zero_of_not_mem x rest hnd.1
      have : (diffKeys RC rest).count x = 0 := by
        rw [ih hnd.2 x, hz]
        omega
      simp [this]
    · have h1 : (x == k) = false := by simp [hxk]
      simp [h1, ih hnd.2 x]
      exact fun h => absurd h.symm hxk

theorem diffKeys_multiset (ks rs : List SKey) :
    ((diffKeys (buildK rs) (buildK ks) : List SKey) : Multiset SKey) =
      (ks : Multiset SKey) - (rs : Multiset SKey) := by
  ext x
  rw [Multiset.count_sub]
  simp only [Multiset.coe_count]
  rw [count_diffKeys (buildK rs) (buildK ks) (nodup_keys_buildK ks) x,
    lookK_buildK, lookK_buildK]

theorem greedy_multiset (ks rs : List SKey) :
    (((loopK ks (rs.map (fun k => (k, false)))).1 : List SKey) : Multiset SKey) =
      (ks : Multiset SKey) - (rs : Multiset SKey) ∧
    ((unmatchedK (loopK ks (rs.map (fun k => (k, false)))).2 : List SKey) : Multiset SKey) =
      (rs : Multiset SKey) - (ks : Multiset SKey) := by
  have h := loopK_multiset ks (rs.map (fun k => (k, false)))
  rwa [unmatchedK_init] at h

/-- C10 amended: on slices of basic scalar elements (bools, ints, uints,
strings — where `==` and DeepEqual coincide with structural equality)
the greedy strategy and the counting strategy report the same multiset
of Removed and Added diff values, so the size-5 threshold of
compareSlicesByValue changes only the order in which they are appended:
whichever strategy it selects, the result is a permutation of the
other's. -/
theorem slice_strategy_multiset_amended (heap : Heap) (n : Nat) (path : String)
    (ety1 ety2 : GoTy) (la ra : Option Nat) (ks rs : List SKey) (res : DiffList) :
    ∃ D1 D2 : DiffList,
      compareSlicesUnordered heap (n + 1) path
        (.vslice ety1 la (ks.map unKey)) (.vslice ety2 ra (rs.map unKey)) res =
          some (res ++ D1, none) ∧
      sliceCountDiffs (n + 1) path (ks.map unKey) (rs.map unKey) res =
          some (res ++ D2, none) ∧
      D1.Perm D2 ∧
      (compareSlicesByValue heap (n + 1) path
          (.vslice ety1 la (ks.map unKey)) (.vslice ety2 ra (rs.map unKey)) res =
            some (res ++ D1, none) ∨
        compareSlicesByValue heap (n + 1) path
          (.vslice ety1 la (ks.map unKey)) (.vslice ety2 ra (rs.map unKey)) res =
            some (res ++ D2, none)) := by
  refine ⟨(loopK ks (rs.map (fun k => (k, false)))).1.map
      (fun k => DiffRec.base path (unKey k) .vnil) ++
      (unmatchedK (loopK ks (rs.map (fun k => (k, false)))).2).map
      (fun k => DiffRec.base path .vnil (unKey k)),
    (diffKeys (buildK rs) (buildK ks)).map (fun k => DiffRec.base path (unKey k) .vnil) ++
      (diffKeys (buildK ks) (buildK rs)).map (fun k => DiffRec.base path .vnil (unKey k)),
    ?_, ?_, ?_, ?_⟩
  · rw [compareSlicesUnordered_unKey, List.append_assoc]
  · rw [sliceCountDiffs_unKey heap n path ks rs res, List.append_assoc]
  · apply List.Perm.append
    · refine Multiset.coe_eq_coe.mp ?_
      rw [← Multiset.map_coe, ← Multiset.map_coe, (greedy_multiset ks rs).1,
        diffKeys_multiset]
    · refine Multiset.coe_eq_coe.mp ?_
      rw [← Multiset.map_coe, ← Multiset.map_coe, (greedy_multiset ks rs).2,
        diffKeys_multiset]
  · simp only [compareSlicesByValue, compareSlicesWithDeepEqual, compareSlicesSimple,
      elemTyOf, sliceElems, List.length_map]
    by_cases hcmp : tyComparable ety1
    · by_cases hlen : ks.length ≤ 5 ∧ rs.length ≤ 5
      · left
        rw [if_neg (by simp [hcmp]), if_pos (by simp [hlen.1, hlen.2]),
          compareSlicesUnordered_unKey, List.append_assoc]
      · right
        rw [if_neg (by simp [hcmp]), if_neg (by
            intro h
            simp only [Bool.and_eq_true, decide_eq_true_eq] at h
            exact hlen ⟨h.1, h.2⟩),
          sliceCountDiffs_unKey heap n path ks rs res, List.append_assoc]
    · left
      rw [if_pos (by simp [hcmp]), compareSlicesUnordered_unKey, List.append_assoc]
